import Mathlib

/-!
# shellup: a one-shot fetch launcher

A shallow embedding of `src/main.c` and the properties of its path resolver,
command selector, session guard, spawner and orchestrator.

Conventions of the embedding.

* A C string is the list of its bytes before the terminating NUL (`CStr`).
  A memory byte is `Option Char`, where `none` is the NUL byte, so a `CStr`
  cannot contain an embedded terminator.
* The program's file-scope variables and the part of the operating system
  the program touches (descriptor table, the sentinel file, the chronological
  list of system calls made) form `State`; every C function is a function
  from `State` to a result and a new `State`.
* What the program cannot control (the value of `PATH`, which paths are
  executable, whether `open` succeeds, what `posix_spawnp` returns, the
  junk in an uninitialised stack array) is read from `Env`.
* `size_t` sums such as `dir_len + cmd_len + 2` are computed in `Nat`: both
  operands are lengths of strings that sit in memory at the same time, so the
  mathematical sum is below `2 ^ 64` and the C sum cannot wrap.
* `waitpid(pid, &status, 0)` blocks until the child exits. Whether the child
  launched for a file name ever exits is read from `Env`; when it does not,
  `spawn_command` and `main` never return, which the embedding shows as the
  result `false`, respectively the exit status `none`, paired with the state
  in which the process stays blocked. Every other system call returns. What
  the child does to the file system is outside the program.
-/

namespace Shellup

/-- A C string, given by its bytes before the terminator. -/
abbrev CStr := List Char

/-- A byte of memory: `none` is NUL, `some c` any other byte. -/
abbrev Byte := Option Char

/-- `#define PATH_BUF_MAX 4096`. -/
def PATH_BUF_MAX : Nat := 4096

/-- `#define MAX_DIRS 256`. -/
def MAX_DIRS : Nat := 256

/-- `static const char *const COMMANDS[]`, without the closing null pointer. -/
def COMMANDS : List CStr :=
  [['p', 'f', 'e', 't', 'c', 'h'],
   ['f', 'a', 's', 't', 'f', 'e', 't', 'c', 'h'],
   ['n', 'e', 'o', 'f', 'e', 't', 'c', 'h']]

/-- The system calls (and the stores into the local array `full_path`) that a
run performs, each with the value it returned. -/
inductive Event where
  | sched_setaffinity
  | sched_setscheduler
  | open_tmp (ret : Int)
  | faccessat (dirfd : Int) (ret : Int)
  | store (index : Nat)
  | access (path : CStr) (ret : Int)
  | open_lock (ret : Int)
  | close (fd : Int) (ret : Int)
  | write_stdout (bytes : CStr)
  | posix_spawnp (file : CStr) (argv : List CStr) (ret : Int)
  | waitpid
  deriving DecidableEq, Repr

/-- What the run reads from its surroundings and cannot influence. -/
structure Env where
  /-- The value `getenv("PATH")` returns; `none` is the null pointer. -/
  PATH : Option CStr
  /-- Whether `access(path, X_OK)` returns 0. -/
  x_ok : CStr → Bool
  /-- Whether the k-th call (from 0) of `open("/tmp", O_RDONLY | O_PATH)` succeeds. -/
  tmp_open_ok : Nat → Bool
  /-- Whether a lookup relative to `/tmp` is permitted to the caller. -/
  tmp_search_ok : Bool
  /-- Whether an exclusive create of the sentinel succeeds when it is absent. -/
  lock_create_ok : Bool
  /-- The value `posix_spawnp` returns for a file name (0 on success). -/
  spawn_ret : CStr → Int
  /-- Whether the child launched for a file name ever exits, so that a blocking
  `waitpid` on it returns. -/
  child_exits : CStr → Bool
  /-- The contents of the uninitialised stack array `full_path`. -/
  junk : Nat → Byte

/-- The file-scope variables of `main.c` followed by the operating-system
state the program reads and writes. `PATH_DIRS` holds the pointers stored so
far, each as the string it points to inside `PATH_CACHE`. -/
structure State where
  CACHED_TMP_DIRFD : Int
  PATH_DIRS : List CStr
  PATH_DIR_N : Int
  INITIALIZED : Int
  /-- The open file descriptors of the process. -/
  fds : List Nat
  /-- Whether `/tmp/fetch_run` exists. -/
  sentinel : Bool
  /-- How many times `open("/tmp", ...)` has been called. -/
  open_calls : Nat
  /-- The system calls made so far, oldest first. -/
  trace : List Event

/-- The state of a freshly started process: the file-scope variables hold
their static initialisers, nothing has been traced. -/
def boot (fds : List Nat) (sentinel : Bool) : State :=
  { CACHED_TMP_DIRFD := -1, PATH_DIRS := [], PATH_DIR_N := -1, INITIALIZED := 0,
    fds := fds, sentinel := sentinel, open_calls := 0, trace := [] }

/-! ## Operating-system and libc primitives -/

/-- Search for the lowest number not in `fds`, starting at `n`. -/
def lowest_unused_from (fds : List Nat) : Nat → Nat → Nat
  | 0, n => n
  | k + 1, n => if n ∈ fds then lowest_unused_from fds k (n + 1) else n

/-- The descriptor a successful `open` returns: the lowest unused one. -/
def lowest_unused (fds : List Nat) : Nat :=
  lowest_unused_from fds fds.length 0

/-- The call `open("/tmp", O_RDONLY | O_PATH)`: returns the new descriptor or -1. -/
def sys_open_tmp (e : Env) (s : State) : Int × State :=
  if e.tmp_open_ok s.open_calls then
    let fd := lowest_unused s.fds
    ((fd : Int), { s with fds := fd :: s.fds, open_calls := s.open_calls + 1,
                          trace := s.trace ++ [Event.open_tmp fd] })
  else
    (-1, { s with open_calls := s.open_calls + 1,
                  trace := s.trace ++ [Event.open_tmp (-1)] })

/-- The call `faccessat(dirfd, "fetch_run", F_OK, 0)` for a descriptor that, when
open, refers to `/tmp`: 0 when the descriptor is open, the lookup is
permitted and the sentinel exists, -1 otherwise. -/
def sys_faccessat (e : Env) (dirfd : Int) (s : State) : Int × State :=
  let ret : Int :=
    if 0 ≤ dirfd ∧ dirfd.toNat ∈ s.fds ∧ e.tmp_search_ok = true ∧ s.sentinel = true
    then 0 else -1
  (ret, { s with trace := s.trace ++ [Event.faccessat dirfd ret] })

/-- The call `open(FETCH_LOC, O_CREAT | O_EXCL | O_WRONLY | O_CLOEXEC, 0644)`:
fails when the sentinel exists or creation is not permitted, otherwise
creates the sentinel and returns a new descriptor. -/
def sys_open_lock (e : Env) (s : State) : Int × State :=
  if s.sentinel = false ∧ e.lock_create_ok = true then
    let fd := lowest_unused s.fds
    ((fd : Int), { s with fds := fd :: s.fds, sentinel := true,
                          trace := s.trace ++ [Event.open_lock fd] })
  else
    (-1, { s with trace := s.trace ++ [Event.open_lock (-1)] })

/-- The call `close(fd)`: 0 and the descriptor is released when it was open,
-1 otherwise. -/
def sys_close (fd : Int) (s : State) : State :=
  if 0 ≤ fd ∧ fd.toNat ∈ s.fds then
    { s with fds := s.fds.erase fd.toNat, trace := s.trace ++ [Event.close fd 0] }
  else
    { s with trace := s.trace ++ [Event.close fd (-1)] }

/-- The string `strncpy(dst, src, n)` leaves in a zero-filled `dst` of more
than `n` bytes: the first `n` bytes of `src`. -/
def strncpy (src : CStr) (n : Nat) : CStr :=
  src.take n

/-- One call of `strtok` with delimiter set ":" on the text that remains:
skip leading delimiters; at the end of the text return the null pointer
(`none`); otherwise return the token up to the next delimiter together with
the text after that delimiter, which the next call continues from. -/
def strtok (s : CStr) : Option (CStr × CStr) :=
  match s.dropWhile (fun c => c == ':') with
  | [] => none
  | t => some (t.takeWhile (fun c => c != ':'), (t.dropWhile (fun c => c != ':')).drop 1)

/-- `memcpy(dst + off, src, src.length)` on a buffer given by its cells. -/
def memcpy : (Nat → Byte) → Nat → List Byte → (Nat → Byte)
  | dst, _, [] => dst
  | dst, off, b :: bs => memcpy (Function.update dst off b) (off + 1) bs

/-- The C string that starts at cell `i` of a buffer, reading at most `fuel` cells. -/
def c_str_from (buf : Nat → Byte) : Nat → Nat → CStr
  | 0, _ => []
  | fuel + 1, i =>
    match buf i with
    | none => []
    | some c => c :: c_str_from buf fuel (i + 1)

/-- The C string held by a `PATH_BUF_MAX`-byte buffer. -/
def c_str (buf : Nat → Byte) : CStr :=
  c_str_from buf PATH_BUF_MAX 0

/-- The stores a `memcpy` of `n` bytes to offset `off` of `full_path` makes. -/
def stores (off n : Nat) : List Event :=
  (List.range' off n).map Event.store

/-! ## The functions of `main.c` -/

/-- `cpu_optimize`: two scheduler calls; neither touches the modelled state. -/
def cpu_optimize (s : State) : State :=
  { s with trace := s.trace ++ [Event.sched_setaffinity, Event.sched_setscheduler] }

/-- `check_lock_file`. -/
def check_lock_file (e : Env) (s : State) : Int × State :=
  if s.CACHED_TMP_DIRFD = -1 then
    let r := sys_open_tmp e s
    let s1 : State := { r.2 with CACHED_TMP_DIRFD := r.1 }
    if s1.CACHED_TMP_DIRFD = -1 then
      (0, s1)
    else
      let a := sys_faccessat e s1.CACHED_TMP_DIRFD s1
      ((if a.1 = 0 then 1 else 0), a.2)
  else
    let a := sys_faccessat e s.CACHED_TMP_DIRFD s
    ((if a.1 = 0 then 1 else 0), a.2)

/-- The `while (token && PATH_DIR_N < MAX_DIRS - 1)` loop of `init_path_cache`.
The first argument is `MAX_DIRS - 1 - PATH_DIR_N`, the number of slots the
guard still admits; `dirs` is `PATH_DIRS[0 .. PATH_DIR_N)`. -/
def init_path_cache_loop : Nat → Option (CStr × CStr) → List CStr → List CStr
  | 0, _, dirs => dirs
  | _ + 1, none, dirs => dirs
  | k + 1, some (token, rest), dirs => init_path_cache_loop k (strtok rest) (dirs ++ [token])

/-- `init_path_cache`. -/
def init_path_cache (e : Env) (s : State) : State :=
  if s.PATH_DIR_N ≠ -1 then
    s
  else
    match e.PATH with
    | none => { s with PATH_DIR_N := 0 }
    | some path_env =>
      let PATH_CACHE := strncpy path_env (PATH_BUF_MAX - 1)
      let dirs := init_path_cache_loop (MAX_DIRS - 1) (strtok PATH_CACHE) []
      { s with PATH_DIRS := dirs, PATH_DIR_N := dirs.length }

/-- The `for` loop of `command_exists` over the directories not yet visited.
Returns the loop's verdict and the trace extended by the stores into
`full_path` and the `access` calls. -/
def command_exists_loop (e : Env) (cmd : CStr) :
    List CStr → (Nat → Byte) → List Event → Bool × List Event
  | [], _, tr => (false, tr)
  | dir :: rest, full_path, tr =>
    let dir_len := dir.length
    let cmd_len := cmd.length
    if dir_len + cmd_len + 2 ≥ PATH_BUF_MAX then
      command_exists_loop e cmd rest full_path tr
    else
      let full_path := memcpy full_path 0 (dir.map some)
      let full_path := Function.update full_path dir_len (some '/')
      let full_path := memcpy full_path (dir_len + 1) (cmd.map some ++ [none])
      let tr := tr ++ (stores 0 dir_len ++ [Event.store dir_len]
                        ++ stores (dir_len + 1) (cmd_len + 1))
      if e.x_ok (c_str full_path) then
        (true, tr ++ [Event.access (c_str full_path) 0])
      else
        command_exists_loop e cmd rest full_path
          (tr ++ [Event.access (c_str full_path) (-1)])

/-- `command_exists`. -/
def command_exists (e : Env) (cmd : CStr) (s : State) : Bool × State :=
  let s := init_path_cache e s
  let r := command_exists_loop e cmd (s.PATH_DIRS.take s.PATH_DIR_N.toNat) e.junk s.trace
  (r.1, { s with trace := r.2 })

/-- `spawn_command`: whether the call returns, and the state in which it
returns or, when `waitpid` blocks for ever, stays. -/
def spawn_command (e : Env) (cmd : CStr) (s : State) : Bool × State :=
  let argv : List CStr :=
    if cmd = ['f', 'a', 's', 't', 'f', 'e', 't', 'c', 'h'] then
      [cmd, ['-', '-', 'c', 'o', 'n', 'f', 'i', 'g'],
       ['e', 'x', 'a', 'm', 'p', 'l', 'e', 's', '/', '1', '3']]
    else
      [cmd]
  let s := { s with trace := s.trace ++ [Event.write_stdout [Char.ofNat 10]] }
  let result := e.spawn_ret cmd
  let s := { s with trace := s.trace ++ [Event.posix_spawnp cmd argv result] }
  if result = 0 then
    (e.child_exits cmd, { s with trace := s.trace ++ [Event.waitpid] })
  else
    (true, s)

/-- `create_lock_file`. -/
def create_lock_file (e : Env) (s : State) : State :=
  let r := sys_open_lock e s
  if r.1 ≥ 0 then
    sys_close r.1 r.2
  else
    r.2

/-- The `for (int i = 0; COMMANDS[i]; i++)` loop of `find_command`. -/
def find_command_loop (e : Env) : List CStr → State → Option CStr × State
  | [], s => (none, s)
  | c :: cs, s =>
    let r := command_exists e c s
    if r.1 then (some c, r.2) else find_command_loop e cs r.2

/-- `find_command`; `none` is the null pointer. -/
def find_command (e : Env) (s : State) : Option CStr × State :=
  find_command_loop e COMMANDS s

/-- `init`. -/
def init (e : Env) (s : State) : State :=
  if s.INITIALIZED ≠ 0 then
    s
  else
    let s := cpu_optimize s
    let s := init_path_cache e s
    let s : State :=
      if s.CACHED_TMP_DIRFD = -1 then
        let r := sys_open_tmp e s
        { r.2 with CACHED_TMP_DIRFD := r.1 }
      else s
    { s with INITIALIZED := 1 }

/-- `cleanup`. -/
def cleanup (s : State) : State :=
  if s.CACHED_TMP_DIRFD ≥ 0 then
    let s := sys_close s.CACHED_TMP_DIRFD s
    { s with CACHED_TMP_DIRFD := -1 }
  else
    s

/-- `main`: the exit status and the final state; when `spawn_command` never
returns, the status is `none` and the state is the one the process stays in. -/
def main (e : Env) (s : State) : Option Int × State :=
  let s := init e s
  let c := check_lock_file e s
  if c.1 ≠ 0 then
    (some 0, cleanup c.2)
  else
    let f := find_command e c.2
    match f.1 with
    | some cmd =>
      let s := create_lock_file e f.2
      let r := spawn_command e cmd s
      if r.1 then (some 0, cleanup r.2) else (none, r.2)
    | none =>
      let s := create_lock_file e f.2
      (some 0, cleanup s)

/-! ## The search path, as parsed and as specified -/

/-- The directories `command_exists` scans: `PATH_DIRS[0 .. PATH_DIR_N)` once
`init_path_cache` has run. -/
def search_path (e : Env) (s : State) : List CStr :=
  (init_path_cache e s).PATH_DIRS.take (init_path_cache e s).PATH_DIR_N.toNat

/-- Splitting a string on the separator ':' as the specification words it:
one component per separator plus one, empty components included. -/
def split_on_colon : CStr → List CStr
  | [] => [[]]
  | c :: cs =>
    if c = ':' then [] :: split_on_colon cs
    else
      match split_on_colon cs with
      | [] => [[c]]
      | t :: ts => (c :: t) :: ts

/-- The search path as the specification words it: the components of the
`PATH` value split on ':', and empty when `PATH` is unset or empty. -/
def spec_search_path : Option CStr → List CStr
  | none => []
  | some [] => []
  | some (c :: cs) => split_on_colon (c :: cs)

/-- The non-empty components of a string split on ':'. -/
def tokens (s : CStr) : List CStr :=
  (split_on_colon s).filter (fun t => !t.isEmpty)

/-! ## Kinds of events -/

/-- A launch of a child process. -/
def is_spawn : Event → Bool
  | Event.posix_spawnp _ _ _ => true
  | _ => false

/-- An attempt to create the sentinel. -/
def is_open_lock : Event → Bool
  | Event.open_lock _ => true
  | _ => false

/-- A successful exclusive create of the sentinel. -/
def is_lock_created : Event → Bool
  | Event.open_lock ret => decide (0 ≤ ret)
  | _ => false

/-- A successful `open("/tmp", ...)`. -/
def is_tmp_opened : Event → Bool
  | Event.open_tmp ret => decide (0 ≤ ret)
  | _ => false

/-- A `close` call. -/
def is_close : Event → Bool
  | Event.close _ _ => true
  | _ => false

/-- An event of the directory scan: a store into `full_path` or an `access` probe. -/
def is_probe : Event → Bool
  | Event.store _ => true
  | Event.access _ _ => true
  | _ => false

/-! ## The events of the stages of a run in a fresh process -/

/-- Whether `check_lock_file` reports the sentinel in a fresh process: the
handle on `/tmp` opens at the first or second attempt, the lookup is
permitted and the sentinel exists. -/
def already_ran (e : Env) (b : Bool) : Bool :=
  (e.tmp_open_ok 0 || e.tmp_open_ok 1) && e.tmp_search_ok && b

/-- The events of `init` followed by `check_lock_file` in a fresh process whose
lowest unused descriptor is `fd`. -/
def guard_events (e : Env) (fd : Nat) (b : Bool) : List Event :=
  [Event.sched_setaffinity, Event.sched_setscheduler] ++
  (if e.tmp_open_ok 0 = true then [Event.open_tmp fd]
   else if e.tmp_open_ok 1 = true then [Event.open_tmp (-1), Event.open_tmp fd]
   else [Event.open_tmp (-1), Event.open_tmp (-1)]) ++
  (if e.tmp_open_ok 0 = true ∨ e.tmp_open_ok 1 = true then
     [Event.faccessat fd (if e.tmp_search_ok = true ∧ b = true then 0 else -1)]
   else [])

/-- The events of `create_lock_file` when the sentinel state is `b` and the
lowest unused descriptor is `fd`. -/
def lock_events (e : Env) (b : Bool) (fd : Nat) : List Event :=
  if b = false ∧ e.lock_create_ok = true then
    [Event.open_lock fd, Event.close fd 0]
  else
    [Event.open_lock (-1)]

/-- The events of `spawn_command` for the selected command, none when the
selector returned the null pointer. -/
def spawn_events (e : Env) : Option CStr → List Event
  | none => []
  | some cmd => (spawn_command e cmd (boot [] false)).2.trace

/-- Whether `spawn_command` for the selected command never returns: the launch
succeeds and the child never exits. -/
def hangs (e : Env) : Option CStr → Bool
  | none => false
  | some cmd => decide (e.spawn_ret cmd = 0) && !e.child_exits cmd

/-- Whether `main` never returns in a fresh process: the already-ran check is
negative and `spawn_command` never returns. -/
def never_returns (e : Env) (fds : List Nat) (b : Bool) : Bool :=
  !already_ran e b && hangs e (find_command e (boot fds b)).1

/-- The events of `cleanup` when a handle `fd` on `/tmp` may be open; none when
`main` never reaches `cleanup` (`returns` is false). -/
def cleanup_events (e : Env) (fd : Nat) (returns : Bool) : List Event :=
  if returns = true ∧ (e.tmp_open_ok 0 = true ∨ e.tmp_open_ok 1 = true) then [Event.close fd 0]
  else []

/-! ## Concrete environments -/

/-- An environment with the given `PATH` value and executable paths in which
every other system call succeeds and a launched child exits. -/
def env_of (path : Option CStr) (x : CStr → Bool) : Env :=
  { PATH := path, x_ok := x, tmp_open_ok := fun _ => true, tmp_search_ok := true,
    lock_create_ok := true, spawn_ret := fun _ => 0, child_exits := fun _ => true,
    junk := fun _ => none }

/-- The string "pfetch". -/
def pfetch : CStr := ['p', 'f', 'e', 't', 'c', 'h']

/-- `PATH=/a:/b`, and `/b/cmd` is the one executable path. -/
def env_two : Env :=
  env_of (some ['/', 'a', ':', '/', 'b']) (fun p => p == ['/', 'b', '/', 'c', 'm', 'd'])

/-- `PATH=/b` with `/b/pfetch` executable, and every system call succeeds. -/
def env_pfetch : Env :=
  env_of (some ['/', 'b']) (fun p => p == ['/', 'b', '/', 'p', 'f', 'e', 't', 'c', 'h'])

/-- As `env_pfetch`, but `open("/tmp", ...)` fails at every attempt. -/
def env_no_tmp : Env :=
  { env_pfetch with tmp_open_ok := fun _ => false }

/-- `PATH` is unset and every system call succeeds. -/
def env_unset : Env := env_of none (fun _ => false)

/-- `PATH` is unset and the sentinel cannot be created. -/
def env_no_create : Env :=
  { env_unset with lock_create_ok := false }

/-- `PATH` is unset and `open("/tmp", ...)` fails at every attempt. -/
def env_unset_no_tmp : Env :=
  { env_unset with tmp_open_ok := fun _ => false }

/-- A directory name of 4091 bytes: with "/cmd" appended it is 4095 bytes
long and, with its terminator, fills a 4096-byte buffer exactly. -/
def long_dir : CStr := List.replicate 4091 '/'

/-- `PATH` is `long_dir`, and `long_dir/cmd` is the one executable path. -/
def env_long : Env :=
  env_of (some long_dir) (fun p => p == long_dir ++ ['/', 'c', 'm', 'd'])

/-- `PATH=a::b`. -/
def env_gap : Env := env_of (some ['a', ':', ':', 'b']) (fun _ => false)

/-- `PATH` is 256 components "a" joined by ':'. -/
def env_many : Env :=
  env_of (some ((List.replicate 255 ['a', ':']).flatten ++ ['a'])) (fun _ => false)

/-- `PATH` is one component of 4096 bytes. -/
def env_wide : Env := env_of (some (List.replicate 4096 'a')) (fun _ => false)

/-! # Theorems -/

/-! ## The tokenizer -/

theorem split_on_colon_eq (s : CStr) :
    split_on_colon s = s.takeWhile (fun c => c != ':') ::
      (match s.dropWhile (fun c => c != ':') with
       | [] => []
       | _ :: r => split_on_colon r) := by
  induction s with
  | nil => simp [split_on_colon]
  | cons c cs ih =>
    by_cases h : c = ':'
    · subst h
      simp [split_on_colon, List.takeWhile, List.dropWhile]
    · have hc : (c != ':') = true := by simpa using h
      rw [split_on_colon, if_neg h, ih]
      simp [List.takeWhile, List.dropWhile, hc]

theorem tokens_colon (s : CStr) : tokens (':' :: s) = tokens s := by
  simp [tokens, split_on_colon]

theorem tokens_dropWhile (s : CStr) :
    tokens (s.dropWhile (fun c => c == ':')) = tokens s := by
  induction s with
  | nil => rfl
  | cons c cs ih =>
    by_cases h : c = ':'
    · subst h
      simp only [List.dropWhile, beq_self_eq_true, tokens_colon]
      exact ih
    · have hc : (c == ':') = false := by simpa using h
      simp [List.dropWhile, hc]

theorem tokens_strtok_none (s : CStr) (h : strtok s = none) : tokens s = [] := by
  unfold strtok at h
  split at h
  · rename_i hd
    rw [← tokens_dropWhile, hd]
    rfl
  · simp at h

theorem tokens_strtok_some (s token rest : CStr) (h : strtok s = some (token, rest)) :
    tokens s = token :: tokens rest := by
  unfold strtok at h
  split at h
  · simp at h
  · rename_i t hne
    simp only [Option.some.injEq, Prod.mk.injEq] at h
    obtain ⟨h1, h2⟩ := h
    rw [← tokens_dropWhile]
    generalize hd : List.dropWhile (fun c => c == ':') s = d at *
    have hhead : ∀ c ∈ d.head?, (c == ':') = false := by
      intro c hc
      have := List.head?_dropWhile_not (fun c => c == ':') s
      rw [hd] at this
      cases hdd : d with
      | nil => simp [hdd] at hc
      | cons x xs =>
        simp [hdd] at hc this
        subst hc
        simpa using this
    cases d with
    | nil => exact absurd rfl (hne)
    | cons x xs =>
      have hx : (x != ':') = true := by
        have := hhead x (by simp)
        simpa using this
      unfold tokens
      rw [split_on_colon_eq]
      subst h1 h2
      simp only [List.takeWhile, hx, List.dropWhile]
      simp only [List.filter, List.isEmpty_cons, Bool.not_false]
      congr 1
      cases hdw : List.dropWhile (fun c => c != ':') xs with
      | nil => simp [split_on_colon]
      | cons y ys => simp

theorem init_path_cache_loop_eq (k : Nat) (s : CStr) (dirs : List CStr) :
    init_path_cache_loop k (strtok s) dirs = dirs ++ (tokens s).take k := by
  induction k generalizing s dirs with
  | zero => simp [init_path_cache_loop]
  | succ k ih =>
    cases h : strtok s with
    | none => simp [init_path_cache_loop, tokens_strtok_none s h]
    | some p =>
      obtain ⟨token, rest⟩ := p
      simp [init_path_cache_loop, ih, tokens_strtok_some s token rest h]

/-! ## The path buffer -/

theorem memcpy_below (src : List Byte) (dst : Nat → Byte) (off i : Nat) (h : i < off) :
    memcpy dst off src i = dst i := by
  induction src generalizing dst off with
  | nil => rfl
  | cons b bs ih =>
    rw [memcpy, ih _ _ (by omega)]
    exact Function.update_noteq (by omega) _ _

theorem memcpy_append (a b : List Byte) (dst : Nat → Byte) (off : Nat) :
    memcpy dst off (a ++ b) = memcpy (memcpy dst off a) (off + a.length) b := by
  induction a generalizing dst off with
  | nil => rfl
  | cons x xs ih =>
    simp only [List.cons_append, memcpy, List.length_cons, List.append_eq]
    rw [ih, show off + 1 + xs.length = off + (xs.length + 1) by omega]

theorem c_str_from_memcpy (s : CStr) (dst : Nat → Byte) (fuel i : Nat) (h : s.length < fuel) :
    c_str_from (memcpy dst i (s.map some ++ [none])) fuel i = s := by
  induction s generalizing dst fuel i with
  | nil =>
    cases fuel with
    | zero => rfl
    | succ f => simp [c_str_from, memcpy]
  | cons c cs ih =>
    cases fuel with
    | zero => simp at h
    | succ f =>
      simp only [List.map_cons, List.cons_append, memcpy, c_str_from]
      rw [memcpy_below _ _ _ _ (Nat.lt_succ_self i)]
      simp only [Function.update_same]
      have := ih (Function.update dst i (some c)) f (i + 1) (by simpa using h)
      simp only [List.append_eq] at this ⊢
      rw [this]

/-- The three stores of `command_exists` leave the string `dir/cmd` in `full_path`
whenever the length guard let them through. -/
theorem full_path_c_str (dir cmd : CStr) (buf : Nat → Byte)
    (h : dir.length + cmd.length + 2 < PATH_BUF_MAX) :
    c_str (memcpy (Function.update (memcpy buf 0 (dir.map some)) dir.length (some '/'))
      (dir.length + 1) (cmd.map some ++ [none])) = dir ++ '/' :: cmd := by
  have e1 : Function.update (memcpy buf 0 (dir.map some)) dir.length (some '/')
      = memcpy (memcpy buf 0 (dir.map some)) (0 + (dir.map some).length) [some '/'] := by
    simp [memcpy]
  have e2 : dir.length + 1 = 0 + (dir.map some ++ [some '/']).length := by simp
  rw [e1, ← memcpy_append]
  conv_lhs => rw [e2]
  rw [← memcpy_append]
  have e3 : (List.map some dir ++ [some '/'] ++ (List.map some cmd ++ [none]) : List Byte)
      = List.map some (dir ++ '/' :: cmd) ++ [none] := by simp
  rw [e3]
  unfold c_str
  apply c_str_from_memcpy
  simp only [List.length_append, List.length_cons]
  omega

/-! ## The resolver -/

theorem command_exists_loop_verdict (e : Env) (cmd : CStr) (dirs : List CStr)
    (buf : Nat → Byte) (tr : List Event) :
    (command_exists_loop e cmd dirs buf tr).1 =
      dirs.any (fun dir => decide (dir.length + cmd.length + 2 < PATH_BUF_MAX)
        && e.x_ok (dir ++ '/' :: cmd)) := by
  induction dirs generalizing buf tr with
  | nil => rfl
  | cons dir rest ih =>
    unfold command_exists_loop
    by_cases hg : dir.length + cmd.length + 2 ≥ PATH_BUF_MAX
    · have hd : decide (dir.length + cmd.length + 2 < PATH_BUF_MAX) = false := by
        simpa using hg
      simp only [hg, if_true, List.any_cons, hd, Bool.false_and, Bool.false_or]
      exact ih _ _
    · have hlt : dir.length + cmd.length + 2 < PATH_BUF_MAX := by omega
      simp only [hg, if_false, List.any_cons, full_path_c_str dir cmd buf hlt]
      by_cases hx : e.x_ok (dir ++ '/' :: cmd) = true
      · simp [hx, hlt]
      · have hx2 : e.x_ok (dir ++ '/' :: cmd) = false := by simpa using hx
        simp only [hx2, Bool.false_eq_true, if_false, Bool.and_false, Bool.false_or]
        exact ih _ _

theorem command_exists_verdict (e : Env) (cmd : CStr) (s : State) :
    (command_exists e cmd s).1 =
      (search_path e s).any (fun dir => decide (dir.length + cmd.length + 2 < PATH_BUF_MAX)
        && e.x_ok (dir ++ '/' :: cmd)) := by
  simp only [command_exists, search_path, command_exists_loop_verdict]

theorem tokens_no_colon (s : CStr) (h : ∀ c ∈ s, c ≠ ':') (hne : s ≠ []) : tokens s = [s] := by
  have ht : s.takeWhile (fun c => c != ':') = s := by
    rw [List.takeWhile_eq_self_iff]
    intro c hc
    simpa using h c hc
  have hd : s.dropWhile (fun c => c != ':') = [] := by
    rw [List.dropWhile_eq_nil_iff]
    intro c hc
    simpa using h c hc
  unfold tokens
  rw [split_on_colon_eq, ht, hd]
  cases s with
  | nil => exact absurd rfl hne
  | cons x xs => rfl

theorem search_path_fresh (e : Env) (s : State) (h : s.PATH_DIR_N = -1) :
    search_path e s =
      match e.PATH with
      | none => []
      | some p => (tokens (p.take (PATH_BUF_MAX - 1))).take (MAX_DIRS - 1) := by
  unfold search_path init_path_cache
  simp only [h, ne_eq, not_true_eq_false, if_false]
  cases e.PATH with
  | none => simp
  | some p =>
    simp only [strncpy, init_path_cache_loop_eq, List.nil_append, Int.toNat_ofNat,
      List.take_length]

theorem mem_stores (i off n : Nat) : Event.store i ∈ stores off n ↔ off ≤ i ∧ i < off + n := by
  simp [stores, List.mem_range']
  constructor
  · rintro ⟨k, hk, rfl⟩; omega
  · rintro ⟨h1, h2⟩; exact ⟨i - off, by omega, by omega⟩

theorem command_exists_loop_stores (e : Env) (cmd : CStr) (dirs : List CStr)
    (buf : Nat → Byte) (tr : List Event) (i : Nat)
    (h : Event.store i ∈ (command_exists_loop e cmd dirs buf tr).2) :
    Event.store i ∈ tr ∨ i < PATH_BUF_MAX := by
  induction dirs generalizing buf tr with
  | nil => exact Or.inl h
  | cons dir rest ih =>
    unfold command_exists_loop at h
    by_cases hg : dir.length + cmd.length + 2 ≥ PATH_BUF_MAX
    · simp only [hg, if_true] at h
      exact ih _ _ h
    · simp only [hg, if_false] at h
      have key : ∀ ev, Event.store i ∈ (tr ++ (stores 0 dir.length ++ [Event.store dir.length]
          ++ stores (dir.length + 1) (cmd.length + 1))) ++ [ev] → (∀ j, ev ≠ Event.store j) →
          Event.store i ∈ tr ∨ i < PATH_BUF_MAX := by
        intro ev hm hev
        simp only [List.mem_append, List.mem_singleton, mem_stores, Event.store.injEq] at hm
        rcases hm with ((hm | (hm | hm) | hm) | hm)
        · exact Or.inl hm
        · right; omega
        · right; omega
        · right; omega
        · exact absurd hm.symm (hev i)
      split at h
      · exact key _ h (by intro j; simp)
      · rcases ih _ _ h with h2 | h2
        · exact key _ h2 (by intro j; simp)
        · exact Or.inr h2

theorem command_exists_loop_skip (e : Env) (cmd dir : CStr) (rest : List CStr)
    (buf : Nat → Byte) (tr : List Event) (h : dir.length + cmd.length + 2 ≥ PATH_BUF_MAX) :
    command_exists_loop e cmd (dir :: rest) buf tr = command_exists_loop e cmd rest buf tr := by
  rw [command_exists_loop]
  simp only [h, if_true]

theorem command_exists_loop_filter (e : Env) (cmd : CStr) (dirs : List CStr)
    (buf : Nat → Byte) (tr : List Event) :
    command_exists_loop e cmd dirs buf tr =
      command_exists_loop e cmd
        (dirs.filter (fun dir => decide (dir.length + 1 + cmd.length + 1 ≤ PATH_BUF_MAX))) buf tr := by
  induction dirs generalizing buf tr with
  | nil => rfl
  | cons dir rest ih =>
    by_cases hfit : dir.length + 1 + cmd.length + 1 ≤ PATH_BUF_MAX
    · simp only [List.filter, hfit, decide_True]
      unfold command_exists_loop
      simp only [ih]
    · simp only [List.filter, hfit, decide_False]
      rw [command_exists_loop_skip e cmd dir rest buf tr (by omega)]
      exact ih _ _

/-! ## C1: the resolver contract -/

/-- C1 (as amended): `command_exists` returns true exactly when some directory
of the parsed search path passes the length guard of the scan
(`dir_len + cmd_len + 2 < 4096`) and `access(dir + "/" + name, X_OK)`
succeeds for it. In particular, on a search path `[d1, d2]` where `d2` passes
the guard and `d2/cmd` is executable, `command_exists("cmd")` returns true
whatever `d1` holds. -/
theorem command_exists_iff (e : Env) (cmd : CStr) (s : State) :
    ((command_exists e cmd s).1 = true ↔
      ∃ dir ∈ search_path e s,
        dir.length + cmd.length + 2 < PATH_BUF_MAX ∧ e.x_ok (dir ++ '/' :: cmd) = true) ∧
    (∀ d1 d2, search_path e s = [d1, d2] → d2.length + cmd.length + 2 < PATH_BUF_MAX →
      e.x_ok (d2 ++ '/' :: cmd) = true → (command_exists e cmd s).1 = true) := by
  have h : (command_exists e cmd s).1 = true ↔
      ∃ dir ∈ search_path e s,
        dir.length + cmd.length + 2 < PATH_BUF_MAX ∧ e.x_ok (dir ++ '/' :: cmd) = true := by
    rw [command_exists_verdict]
    simp [List.any_eq_true]
  refine ⟨h, ?_⟩
  intro d1 d2 hsp hg hx
  exact h.2 ⟨d2, by rw [hsp]; simp, hg, hx⟩

/-- C1, the amended statement at `PATH=/a:/b` with only `/b/cmd` executable:
the scan does not stop at `/a` and `command_exists("cmd")` returns true. -/
theorem command_exists_iff_witness :
    search_path env_two (boot [0, 1, 2] false) = [['/', 'a'], ['/', 'b']] ∧
    env_two.x_ok (['/', 'a'] ++ '/' :: ['c', 'm', 'd']) = false ∧
    (command_exists env_two ['c', 'm', 'd'] (boot [0, 1, 2] false)).1 = true :=
  ⟨by decide, by decide,
   (command_exists_iff env_two ['c', 'm', 'd'] (boot [0, 1, 2] false)).2
     ['/', 'a'] ['/', 'b'] (by decide) (by decide) (by decide)⟩

theorem search_path_env_long : search_path env_long (boot [0, 1, 2] false) = [long_dir] := by
  rw [search_path_fresh _ _ rfl]
  have hlen : long_dir.length = 4091 := List.length_replicate _ _
  have htake : long_dir.take (PATH_BUF_MAX - 1) = long_dir :=
    List.take_of_length_le (by rw [hlen]; decide)
  have htok : tokens long_dir = [long_dir] := by
    apply tokens_no_colon
    · intro c hc
      have : c = '/' := List.eq_of_mem_replicate hc
      subst this
      decide
    · intro h
      rw [h] at hlen
      simp at hlen
  show List.take (MAX_DIRS - 1) (tokens (List.take (PATH_BUF_MAX - 1) long_dir)) = [long_dir]
  rw [htake, htok]
  rfl

/-- C1 fails as stated: with `PATH` a single directory of 4091 bytes whose entry
`cmd` is executable (a path of 4095 bytes, which fits the buffer), the search
path contains a directory for which `access` succeeds, yet the length guard
skips it and `command_exists("cmd")` returns false. -/
theorem command_exists_misses_long_dir :
    (∃ dir ∈ search_path env_long (boot [0, 1, 2] false),
      dir.length + 1 + 3 + 1 ≤ PATH_BUF_MAX ∧
      env_long.x_ok (dir ++ '/' :: ['c', 'm', 'd']) = true) ∧
    (command_exists env_long ['c', 'm', 'd'] (boot [0, 1, 2] false)).1 = false := by
  have hlen : long_dir.length = 4091 := List.length_replicate _ _
  refine ⟨⟨long_dir, ?_, ?_, ?_⟩, ?_⟩
  · rw [search_path_env_long]; simp
  · rw [hlen]; decide
  · simp only [env_long, env_of, List.singleton_append, beq_self_eq_true]
  · rw [command_exists_verdict, search_path_env_long]
    have hg : decide (long_dir.length + ['c', 'm', 'd'].length + 2 < PATH_BUF_MAX) = false := by
      rw [hlen]; decide
    simp only [List.any_cons, List.any_nil, hg, Bool.false_and, Bool.or_false]

/-! ## C6: over-long directories -/

/-- C6: in `command_exists` every store into `full_path` is at an index below
4096; a directory whose full path with its terminator does not fit the
buffer is passed over with no store and no probe; and the scan yields the
same verdict and the same trace as the scan of the search path with those
directories removed. -/
theorem command_exists_overlong_skipped (e : Env) (cmd : CStr) (s : State) :
    (∀ i, Event.store i ∈ (command_exists e cmd s).2.trace →
      Event.store i ∈ s.trace ∨ i < PATH_BUF_MAX) ∧
    (∀ dir rest buf tr, PATH_BUF_MAX < dir.length + 1 + cmd.length + 1 →
      command_exists_loop e cmd (dir :: rest) buf tr = command_exists_loop e cmd rest buf tr) ∧
    (command_exists e cmd s).1 =
      (command_exists_loop e cmd
        ((search_path e s).filter
          (fun dir => decide (dir.length + 1 + cmd.length + 1 ≤ PATH_BUF_MAX)))
        e.junk (init_path_cache e s).trace).1 ∧
    (command_exists e cmd s).2.trace =
      (command_exists_loop e cmd
        ((search_path e s).filter
          (fun dir => decide (dir.length + 1 + cmd.length + 1 ≤ PATH_BUF_MAX)))
        e.junk (init_path_cache e s).trace).2 := by
  refine ⟨?_, ?_, ?_, ?_⟩
  · intro i hi
    have h1 := command_exists_loop_stores e cmd _ _ _ i hi
    have h2 : (init_path_cache e s).trace = s.trace := by
      unfold init_path_cache
      split
      · rfl
      · split <;> rfl
    rw [h2] at h1
    exact h1
  · intro dir rest buf tr h
    exact command_exists_loop_skip e cmd dir rest buf tr (by omega)
  · rw [← command_exists_loop_filter]; rfl
  · rw [← command_exists_loop_filter]; rfl

/-- C6 at a search path whose first directory is 4092 bytes long and whose second
is `/b`, with `/b/cmd` executable: the first directory is passed over and the
scan goes on to find `cmd` in the second. -/
theorem command_exists_overlong_skipped_witness :
    PATH_BUF_MAX < (List.replicate 4092 '/').length + 1 + ['c', 'm', 'd'].length + 1 ∧
    (command_exists_loop env_two ['c', 'm', 'd'] [List.replicate 4092 '/', ['/', 'b']]
      env_two.junk []).1 = true :=
  have h : PATH_BUF_MAX < (List.replicate 4092 '/').length + 1 + ['c', 'm', 'd'].length + 1 := by
    rw [List.length_replicate]
    decide
  ⟨h, (congrArg Prod.fst
    ((command_exists_overlong_skipped env_two ['c', 'm', 'd'] (boot [0, 1, 2] false)).2.1
      (List.replicate 4092 '/') [['/', 'b']] env_two.junk [] h)).trans (by decide)⟩

/-! ## C7: parsing `PATH` -/

theorem search_path_of_unset (e : Env) (s : State) (h : s.PATH_DIR_N = -1)
    (hp : e.PATH = none ∨ e.PATH = some []) : search_path e s = [] := by
  rw [search_path_fresh e s h]
  rcases hp with hp | hp
  · rw [hp]
  · rw [hp]
    rfl

/-- C7 (as amended): on the first call of `init_path_cache` the parsed search
path is the first 255 non-empty components of the first 4095 bytes of the
`PATH` value split on ':', in their order; `PATH_DIR_N` is its length; and it
is empty when `PATH` is unset or empty. -/
theorem init_path_cache_parses (e : Env) (s : State) (h : s.PATH_DIR_N = -1) :
    search_path e s =
      (match e.PATH with
       | none => []
       | some p =>
         ((split_on_colon (p.take 4095)).filter (fun t => !t.isEmpty)).take 255) ∧
    (init_path_cache e s).PATH_DIR_N = (search_path e s).length ∧
    (e.PATH = none ∨ e.PATH = some [] → search_path e s = []) := by
  have h1 := search_path_fresh e s h
  refine ⟨h1, ?_, ?_⟩
  · unfold search_path init_path_cache
    simp only [h, ne_eq, not_true_eq_false, if_false]
    cases e.PATH with
    | none => simp
    | some p => simp only [Int.toNat_ofNat, List.take_length]
  · exact search_path_of_unset e s h

/-- C7, the amended statement at `PATH=/a:/b` in a fresh process. -/
theorem init_path_cache_parses_witness :
    search_path env_two (boot [0, 1, 2] false) = [['/', 'a'], ['/', 'b']] ∧
    (init_path_cache env_two (boot [0, 1, 2] false)).PATH_DIR_N = 2 :=
  have h := init_path_cache_parses env_two (boot [0, 1, 2] false) rfl
  ⟨h.1.trans (by decide), h.2.1.trans (by decide)⟩

theorem split_no_colon (s : CStr) (h : ∀ c ∈ s, c ≠ ':') : split_on_colon s = [s] := by
  have ht : s.takeWhile (fun c => c != ':') = s := by
    rw [List.takeWhile_eq_self_iff]
    intro c hc
    simpa using h c hc
  have hd : s.dropWhile (fun c => c != ':') = [] := by
    rw [List.dropWhile_eq_nil_iff]
    intro c hc
    simpa using h c hc
  rw [split_on_colon_eq, ht, hd]

theorem spec_search_path_some (s : CStr) (hne : s ≠ []) :
    spec_search_path (some s) = split_on_colon s := by
  cases s with
  | nil => exact absurd rfl hne
  | cons c cs => rfl

/-- The string "a:" repeated `n` times, followed by "a". -/
theorem split_many (n : Nat) :
    split_on_colon ((List.replicate n ['a', ':']).flatten ++ ['a']) =
      List.replicate (n + 1) ['a'] := by
  induction n with
  | zero => decide
  | succ n ih =>
    rw [List.replicate_succ, List.flatten_cons, List.append_assoc]
    show split_on_colon ('a' :: ':' :: ((List.replicate n ['a', ':']).flatten ++ ['a'])) = _
    rw [split_on_colon, if_neg (by decide), split_on_colon, if_pos rfl, ih]
    rfl

theorem length_many (n : Nat) :
    ((List.replicate n ['a', ':']).flatten ++ ['a']).length = 2 * n + 1 := by
  induction n with
  | zero => rfl
  | succ n ih =>
    rw [List.replicate_succ, List.flatten_cons, List.append_assoc, List.length_append, ih]
    simp only [List.length_cons, List.length_nil]
    omega

theorem search_path_env_gap :
    search_path env_gap (boot [0, 1, 2] false) = [['a'], ['b']] := by
  decide

theorem search_path_env_many :
    (search_path env_many (boot [0, 1, 2] false)).length = 255 := by
  rw [search_path_fresh _ _ rfl]
  show (List.take (MAX_DIRS - 1) (tokens (List.take (PATH_BUF_MAX - 1)
    ((List.replicate 255 ['a', ':']).flatten ++ ['a'])))).length = 255
  have ht : List.take (PATH_BUF_MAX - 1) ((List.replicate 255 ['a', ':']).flatten ++ ['a'])
      = (List.replicate 255 ['a', ':']).flatten ++ ['a'] :=
    List.take_of_length_le (by rw [length_many]; decide)
  rw [ht, tokens, split_many]
  have hf : List.filter (fun t => !t.isEmpty) (List.replicate (255 + 1) ['a'])
      = List.replicate (255 + 1) ['a'] := by
    rw [List.filter_eq_self]
    intro t ht
    rw [List.eq_of_mem_replicate ht]
    rfl
  rw [hf, List.length_take, List.length_replicate]
  decide

theorem search_path_env_wide :
    search_path env_wide (boot [0, 1, 2] false) = [List.replicate 4095 'a'] := by
  rw [search_path_fresh _ _ rfl]
  show List.take (MAX_DIRS - 1) (tokens (List.take (PATH_BUF_MAX - 1)
    (List.replicate 4096 'a'))) = [List.replicate 4095 'a']
  have ht : List.take (PATH_BUF_MAX - 1) (List.replicate 4096 'a') = List.replicate 4095 'a' := by
    rw [List.take_replicate]
    rfl
  rw [ht, tokens_no_colon]
  · rfl
  · intro c hc
    rw [List.eq_of_mem_replicate hc]
    decide
  · intro h
    have := congrArg List.length h
    rw [List.length_replicate] at this
    exact absurd this (by decide)

/-- C7 fails as stated, in three ways. `PATH=a::b` is parsed to `[a, b]`, while
splitting on ':' gives `[a, "", b]`. A `PATH` of 256 components is parsed to
255 directories. A `PATH` of one 4096-byte component is parsed to a
directory of 4095 bytes. -/
theorem init_path_cache_not_split :
    (search_path env_gap (boot [0, 1, 2] false) = [['a'], ['b']] ∧
      spec_search_path env_gap.PATH = [['a'], [], ['b']]) ∧
    ((search_path env_many (boot [0, 1, 2] false)).length = 255 ∧
      (spec_search_path env_many.PATH).length = 256) ∧
    (search_path env_wide (boot [0, 1, 2] false) = [List.replicate 4095 'a'] ∧
      spec_search_path env_wide.PATH = [List.replicate 4096 'a']) := by
  have hmany : (List.replicate 255 ['a', ':']).flatten ++ ['a'] ≠ [] := by
    intro h
    have := congrArg List.length h
    rw [length_many] at this
    exact absurd this (by decide)
  have hwide : List.replicate 4096 'a' ≠ [] := by
    intro h
    have := congrArg List.length h
    rw [List.length_replicate] at this
    exact absurd this (by decide)
  refine ⟨⟨search_path_env_gap, by decide⟩, ⟨search_path_env_many, ?_⟩,
    ⟨search_path_env_wide, ?_⟩⟩
  · show (spec_search_path (some ((List.replicate 255 ['a', ':']).flatten ++ ['a']))).length = 256
    rw [spec_search_path_some _ hmany, split_many, List.length_replicate]
  · show spec_search_path (some (List.replicate 4096 'a')) = _
    rw [spec_search_path_some _ hwide]
    apply split_no_colon
    intro c hc
    rw [List.eq_of_mem_replicate hc]
    decide

/-! ## The selector -/

theorem init_path_cache_N_ne (e : Env) (s : State) : (init_path_cache e s).PATH_DIR_N ≠ -1 := by
  unfold init_path_cache
  split
  · assumption
  · split
    · simp
    · simp only [ne_eq]
      omega

theorem init_path_cache_of_ne (e : Env) (s : State) (h : s.PATH_DIR_N ≠ -1) :
    init_path_cache e s = s := by
  unfold init_path_cache
  rw [if_pos h]

theorem init_path_cache_trace (e : Env) (s : State) : (init_path_cache e s).trace = s.trace := by
  unfold init_path_cache
  split
  · rfl
  · split <;> rfl

theorem command_exists_state (e : Env) (cmd : CStr) (s : State) :
    (command_exists e cmd s).2 =
      { init_path_cache e s with trace := (command_exists e cmd s).2.trace } := rfl

theorem search_path_command_exists (e : Env) (c : CStr) (s : State) :
    search_path e (command_exists e c s).2 = search_path e s := by
  have h : init_path_cache e (command_exists e c s).2 = (command_exists e c s).2 :=
    init_path_cache_of_ne _ _ (init_path_cache_N_ne e s)
  unfold search_path
  rw [h]
  rfl

theorem command_exists_after (e : Env) (c cmd : CStr) (s : State) :
    (command_exists e cmd (command_exists e c s).2).1 = (command_exists e cmd s).1 := by
  rw [command_exists_verdict, command_exists_verdict, search_path_command_exists]

theorem find_command_loop_find (e : Env) (cs : List CStr) (s : State) :
    (find_command_loop e cs s).1 = cs.find? (fun c => (command_exists e c s).1) := by
  induction cs generalizing s with
  | nil => rfl
  | cons c cs ih =>
    unfold find_command_loop
    by_cases h : (command_exists e c s).1 = true
    · simp [h]
    · simp only [h, Bool.false_eq_true, if_false, List.find?_cons_of_neg, not_false_eq_true, ih]
      simp only [command_exists_after]

/-- C2: `find_command` returns the first name of `pfetch`, `fastfetch`,
`neofetch` for which `command_exists` is true, so never a later name when an
earlier one resolves, and returns the null pointer exactly when none of the
three resolves. -/
theorem find_command_first (e : Env) (s : State) :
    COMMANDS = [['p', 'f', 'e', 't', 'c', 'h'], ['f', 'a', 's', 't', 'f', 'e', 't', 'c', 'h'],
      ['n', 'e', 'o', 'f', 'e', 't', 'c', 'h']] ∧
    (find_command e s).1 = COMMANDS.find? (fun c => (command_exists e c s).1) ∧
    ((find_command e s).1 = none ↔ ∀ c ∈ COMMANDS, (command_exists e c s).1 = false) ∧
    (∀ c, (find_command e s).1 = some c ↔
      (command_exists e c s).1 = true ∧
      ∃ earlier later, COMMANDS = earlier ++ c :: later ∧
        ∀ c1 ∈ earlier, (command_exists e c1 s).1 = false) := by
  have h : (find_command e s).1 = COMMANDS.find? (fun c => (command_exists e c s).1) :=
    find_command_loop_find e COMMANDS s
  refine ⟨rfl, h, ?_, ?_⟩
  · rw [h, List.find?_eq_none]
    simp
  · intro c
    rw [h, List.find?_eq_some]
    simp

/-- C2 at `PATH=/bin` with both `/bin/fastfetch` and `/bin/neofetch` executable:
`fastfetch`, the earlier of the two candidates, is returned. -/
theorem find_command_first_witness :
    (find_command (env_of (some ['/', 'b', 'i', 'n'])
        (fun p => p == ['/', 'b', 'i', 'n', '/', 'f', 'a', 's', 't', 'f', 'e', 't', 'c', 'h']
          || p == ['/', 'b', 'i', 'n', '/', 'n', 'e', 'o', 'f', 'e', 't', 'c', 'h']))
      (boot [0, 1, 2] false)).1 = some ['f', 'a', 's', 't', 'f', 'e', 't', 'c', 'h'] :=
  ((find_command_first _ _).2.2.2 _).mpr
    ⟨by decide, [['p', 'f', 'e', 't', 'c', 'h']], [['n', 'e', 'o', 'f', 'e', 't', 'c', 'h']],
      by decide, by decide⟩

/-! ## What each function adds to the trace -/

theorem command_exists_loop_trace (e : Env) (cmd : CStr) (dirs : List CStr)
    (buf : Nat → Byte) (tr : List Event) :
    ∃ d, (command_exists_loop e cmd dirs buf tr).2 = tr ++ d ∧ ∀ ev ∈ d, is_probe ev = true := by
  induction dirs generalizing buf tr with
  | nil => exact ⟨[], by simp [command_exists_loop], by simp⟩
  | cons dir rest ih =>
    unfold command_exists_loop
    by_cases hg : dir.length + cmd.length + 2 ≥ PATH_BUF_MAX
    · simp only [hg, if_true]
      exact ih _ _
    · simp only [hg, if_false]
      have hst : ∀ off n, ∀ ev ∈ stores off n, is_probe ev = true := by
        intro off n ev hev
        simp only [stores, List.mem_map] at hev
        obtain ⟨k, _, rfl⟩ := hev
        rfl
      split
      · refine ⟨_, by rw [List.append_assoc], ?_⟩
        intro ev hev
        simp only [List.mem_append, List.mem_singleton] at hev
        rcases hev with ((h | h) | h) | h
        · exact hst _ _ _ h
        · subst h; rfl
        · exact hst _ _ _ h
        · subst h; rfl
      · obtain ⟨d, hd, hp⟩ := ih
          (memcpy (Function.update (memcpy buf 0 (dir.map some)) dir.length (some '/'))
            (dir.length + 1) (cmd.map some ++ [none]))
          (tr ++ (stores 0 dir.length ++ [Event.store dir.length]
            ++ stores (dir.length + 1) (cmd.length + 1)) ++
            [Event.access (c_str (memcpy (Function.update (memcpy buf 0 (dir.map some))
              dir.length (some '/')) (dir.length + 1) (cmd.map some ++ [none]))) (-1)])
        refine ⟨_, by rw [hd, List.append_assoc, List.append_assoc], ?_⟩
        intro ev hev
        simp only [List.mem_append, List.mem_singleton] at hev
        rcases hev with ((h | h) | h) | h | h
        · exact hst _ _ _ h
        · subst h; rfl
        · exact hst _ _ _ h
        · subst h; rfl
        · exact hp ev h

theorem command_exists_frame (e : Env) (cmd : CStr) (s : State) :
    ∃ d, (command_exists e cmd s).2 = { init_path_cache e s with trace := s.trace ++ d } ∧
      (∀ ev ∈ d, is_probe ev = true) ∧ (search_path e s = [] → d = []) := by
  obtain ⟨d, hd, hp⟩ := command_exists_loop_trace e cmd (search_path e s) e.junk
    (init_path_cache e s).trace
  refine ⟨d, ?_, hp, ?_⟩
  · rw [command_exists_state]
    have : (command_exists e cmd s).2.trace = s.trace ++ d := by
      rw [← init_path_cache_trace e s, ← hd]
      rfl
    rw [this]
  · intro h
    rw [h] at hd
    simpa [command_exists_loop] using hd

theorem search_path_of_ne (e : Env) (s : State) (hs : s.PATH_DIR_N ≠ -1) :
    search_path e s = s.PATH_DIRS.take s.PATH_DIR_N.toNat := by
  unfold search_path
  rw [init_path_cache_of_ne e s hs]

theorem find_command_loop_frame (e : Env) (cs : List CStr) (s : State)
    (hs : s.PATH_DIR_N ≠ -1) :
    ∃ d, (find_command_loop e cs s).2 = { s with trace := s.trace ++ d } ∧
      (∀ ev ∈ d, is_probe ev = true) ∧ (search_path e s = [] → d = []) := by
  induction cs generalizing s with
  | nil => exact ⟨[], by simp [find_command_loop], by simp, fun _ => rfl⟩
  | cons c cs ih =>
    obtain ⟨d, hd, hp, he⟩ := command_exists_frame e c s
    rw [init_path_cache_of_ne e s hs] at hd
    unfold find_command_loop
    by_cases h : (command_exists e c s).1 = true
    · simp only [h, if_true]
      exact ⟨d, hd, hp, he⟩
    · simp only [h, Bool.false_eq_true, if_false]
      obtain ⟨d2, hd2, hp2, he2⟩ := ih (command_exists e c s).2 (by rw [hd]; exact hs)
      refine ⟨d ++ d2, ?_, ?_, ?_⟩
      · rw [hd2, hd]
        simp
      · intro ev hev
        rcases List.mem_append.1 hev with h1 | h1
        · exact hp ev h1
        · exact hp2 ev h1
      · intro hnil
        rw [he hnil, he2 (by rw [search_path_command_exists]; exact hnil)]
        rfl

theorem find_command_frame (e : Env) (s : State) (hs : s.PATH_DIR_N ≠ -1) :
    ∃ d, (find_command e s).2 = { s with trace := s.trace ++ d } ∧
      (∀ ev ∈ d, is_probe ev = true) ∧ (search_path e s = [] → d = []) :=
  find_command_loop_frame e COMMANDS s hs

/-- The selector's answer depends on the state only through the search path. -/
theorem find_command_congr (e : Env) (s t : State) (h : search_path e s = search_path e t) :
    (find_command e s).1 = (find_command e t).1 := by
  unfold find_command
  rw [find_command_loop_find, find_command_loop_find]
  congr 1
  funext c
  rw [command_exists_verdict, command_exists_verdict, h]

/-! ## The orchestrator -/

theorem main_unfold (e : Env) (s : State) :
    main e s =
      if (check_lock_file e (init e s)).1 ≠ 0 then
        (some (0 : Int), cleanup (check_lock_file e (init e s)).2)
      else
        match (find_command e (check_lock_file e (init e s)).2).1 with
        | some cmd =>
          if (spawn_command e cmd
              (create_lock_file e (find_command e (check_lock_file e (init e s)).2).2)).1 = true
          then
            (some 0, cleanup (spawn_command e cmd
              (create_lock_file e (find_command e (check_lock_file e (init e s)).2).2)).2)
          else
            (none, (spawn_command e cmd
              (create_lock_file e (find_command e (check_lock_file e (init e s)).2).2)).2)
        | none =>
          (some 0,
            cleanup (create_lock_file e (find_command e (check_lock_file e (init e s)).2).2)) := by
  rfl

theorem spawn_command_returns (e : Env) (cmd : CStr) (s : State) :
    (spawn_command e cmd s).1 = !hangs e (some cmd) := by
  unfold spawn_command hangs
  by_cases h : e.spawn_ret cmd = 0
  · simp [h]
  · simp [h]

theorem create_lock_file_eq (e : Env) (s : State) :
    create_lock_file e s =
      { s with sentinel := s.sentinel || e.lock_create_ok,
               trace := s.trace ++ lock_events e s.sentinel (lowest_unused s.fds) } := by
  unfold create_lock_file sys_open_lock lock_events
  by_cases h : s.sentinel = false ∧ e.lock_create_ok = true
  · simp [h, sys_close]
  · simp only [h, if_false]
    have : (s.sentinel || e.lock_create_ok) = s.sentinel := by
      cases hs : s.sentinel <;> cases hl : e.lock_create_ok <;> simp_all
    simp [this]

theorem spawn_command_eq (e : Env) (cmd : CStr) (s : State) :
    spawn_command e cmd s =
      (!hangs e (some cmd), { s with trace := s.trace ++ spawn_events e (some cmd) }) := by
  refine Prod.ext (spawn_command_returns e cmd s) ?_
  unfold spawn_events spawn_command
  simp only [boot, List.nil_append]
  split <;> simp

theorem spawn_events_none (e : Env) : spawn_events e none = [] := rfl

theorem init_path_cache_with_trace (e : Env) (s : State) (t : List Event) :
    init_path_cache e { s with trace := t } = { init_path_cache e s with trace := t } := by
  unfold init_path_cache
  simp only
  split
  · rfl
  · split <;> rfl

/-- The state in which `check_lock_file` returns when `main` starts in a fresh process. -/
theorem check_boot (e : Env) (fds : List Nat) (b : Bool) :
    check_lock_file e (init e (boot fds b)) =
      ((if already_ran e b = true then 1 else 0),
        { CACHED_TMP_DIRFD :=
            if e.tmp_open_ok 0 = true ∨ e.tmp_open_ok 1 = true then lowest_unused fds else -1,
          PATH_DIRS := (init_path_cache e (boot fds b)).PATH_DIRS,
          PATH_DIR_N := (init_path_cache e (boot fds b)).PATH_DIR_N,
          INITIALIZED := 1,
          fds := if e.tmp_open_ok 0 = true ∨ e.tmp_open_ok 1 = true then lowest_unused fds :: fds
                 else fds,
          sentinel := b,
          open_calls := if e.tmp_open_ok 0 = true then 1 else 2,
          trace := guard_events e (lowest_unused fds) b }) := by
  have h2 : (init_path_cache e (boot fds b)).CACHED_TMP_DIRFD = -1 ∧
      (init_path_cache e (boot fds b)).INITIALIZED = 0 ∧
      (init_path_cache e (boot fds b)).fds = fds ∧
      (init_path_cache e (boot fds b)).sentinel = b ∧
      (init_path_cache e (boot fds b)).open_calls = 0 := by
    unfold init_path_cache
    split
    · exact ⟨rfl, rfl, rfl, rfl, rfl⟩
    · split <;> exact ⟨rfl, rfl, rfl, rfl, rfl⟩
  have hA : init_path_cache e (cpu_optimize (boot fds b)) =
      { init_path_cache e (boot fds b) with
        trace := [Event.sched_setaffinity, Event.sched_setscheduler] } := by
    have : cpu_optimize (boot fds b) = { boot fds b with
        trace := [Event.sched_setaffinity, Event.sched_setscheduler] } := rfl
    rw [this, init_path_cache_with_trace]
  have hne : ((lowest_unused fds : Nat) : Int) ≠ -1 := by omega
  have hinit : init e (boot fds b) =
      { (if (init_path_cache e (cpu_optimize (boot fds b))).CACHED_TMP_DIRFD = -1 then
          { (sys_open_tmp e (init_path_cache e (cpu_optimize (boot fds b)))).2 with
            CACHED_TMP_DIRFD := (sys_open_tmp e (init_path_cache e (cpu_optimize (boot fds b)))).1 }
        else init_path_cache e (cpu_optimize (boot fds b))) with INITIALIZED := 1 } := rfl
  rw [hinit, hA]
  generalize init_path_cache e (boot fds b) = s1 at h2 ⊢
  obtain ⟨c1, P1, N1, I1, F1, b1, o1, t1⟩ := s1
  simp only at h2
  obtain ⟨rfl, rfl, rfl, rfl, rfl⟩ := h2
  by_cases h0 : e.tmp_open_ok 0 = true
  · simp [check_lock_file, sys_open_tmp, sys_faccessat, guard_events, already_ran, h0, hne]
  · by_cases h1 : e.tmp_open_ok 1 = true
    · simp [check_lock_file, sys_open_tmp, sys_faccessat, guard_events, already_ran, h0, h1, hne]
    · simp [check_lock_file, sys_open_tmp, guard_events, already_ran, h0, h1]

/-- The whole run of `main` in a fresh process: the exit status and the final
state, with the events of the directory scan left as `d`. -/
theorem main_boot (e : Env) (fds : List Nat) (b : Bool) :
    ∃ d, (∀ ev ∈ d, is_probe ev = true) ∧ (search_path e (boot fds b) = [] → d = []) ∧
      main e (boot fds b) = (if never_returns e fds b = true then none else some 0,
        { CACHED_TMP_DIRFD :=
            if never_returns e fds b = true ∧
              (e.tmp_open_ok 0 = true ∨ e.tmp_open_ok 1 = true) then lowest_unused fds else -1,
          PATH_DIRS := (init_path_cache e (boot fds b)).PATH_DIRS,
          PATH_DIR_N := (init_path_cache e (boot fds b)).PATH_DIR_N,
          INITIALIZED := 1,
          fds :=
            if never_returns e fds b = true ∧
              (e.tmp_open_ok 0 = true ∨ e.tmp_open_ok 1 = true) then lowest_unused fds :: fds
            else fds,
          sentinel := b || e.lock_create_ok,
          open_calls := if e.tmp_open_ok 0 = true then 1 else 2,
          trace := guard_events e (lowest_unused fds) b ++
            (if already_ran e b = true then []
             else d ++
               lock_events e b (lowest_unused
                 (if e.tmp_open_ok 0 = true ∨ e.tmp_open_ok 1 = true then lowest_unused fds :: fds
                  else fds)) ++
               spawn_events e (find_command e (boot fds b)).1) ++
            cleanup_events e (lowest_unused fds) (!never_returns e fds b) }) := by
  have hc := check_boot e fds b
  have hN : (check_lock_file e (init e (boot fds b))).2.PATH_DIR_N ≠ -1 := by
    rw [hc]
    exact init_path_cache_N_ne e _
  have hsp : search_path e (check_lock_file e (init e (boot fds b))).2 =
      search_path e (boot fds b) := by
    rw [search_path_of_ne e _ hN, hc]
    rfl
  obtain ⟨d, hd, hp, he⟩ := find_command_frame e _ hN
  refine ⟨d, hp, fun h => he (hsp.trans h), ?_⟩
  rw [main_unfold, hd, find_command_congr e _ _ hsp, hc]
  have hne : ((lowest_unused fds : Nat) : Int) ≠ -1 := by omega
  by_cases hr : already_ran e b = true
  · have hb : b = true := by
      simp only [already_ran, Bool.and_eq_true] at hr
      exact hr.2
    have hok : e.tmp_open_ok 0 = true ∨ e.tmp_open_ok 1 = true := by
      simp only [already_ran, Bool.and_eq_true, Bool.or_eq_true] at hr
      exact hr.1.1
    subst hb
    simp [hr, hok, cleanup, sys_close, cleanup_events, never_returns]
  · simp only [hr, Bool.false_eq_true, if_false, ne_eq, not_true_eq_false]
    have hnr : never_returns e fds b = hangs e (find_command e (boot fds b)).1 := by
      simp [never_returns, hr]
    rw [hnr]
    by_cases hok : e.tmp_open_ok 0 = true ∨ e.tmp_open_ok 1 = true
    · cases hf : (find_command e (boot fds b)).1 with
      | none =>
        simp [hok, cleanup, sys_close, cleanup_events, create_lock_file_eq, spawn_events_none,
          hangs]
      | some cmd =>
        cases hh : hangs e (some cmd) <;>
          simp [hok, cleanup, sys_close, cleanup_events, create_lock_file_eq, spawn_command_eq,
            hh]
    · cases hf : (find_command e (boot fds b)).1 with
      | none =>
        simp [hok, cleanup, sys_close, cleanup_events, create_lock_file_eq, spawn_events_none,
          hangs]
      | some cmd =>
        cases hh : hangs e (some cmd) <;>
          simp [hok, cleanup, sys_close, cleanup_events, create_lock_file_eq, spawn_command_eq,
            hh]

/-! ## Facts about the pieces of a run -/

theorem lowest_unused_from_spec (fds : List Nat) (k n : Nat) (h : ∀ m, m < n → m ∈ fds) :
    lowest_unused_from fds k n ∉ fds ∨
      (lowest_unused_from fds k n = n + k ∧ ∀ m, m < n + k → m ∈ fds) := by
  induction k generalizing n with
  | zero => exact Or.inr ⟨rfl, h⟩
  | succ k ih =>
    unfold lowest_unused_from
    by_cases hn : n ∈ fds
    · rw [if_pos hn]
      have h2 : ∀ m, m < n + 1 → m ∈ fds := by
        intro m hm
        rcases Nat.lt_succ_iff_lt_or_eq.1 hm with h3 | h3
        · exact h m h3
        · exact h3 ▸ hn
      rcases ih (n + 1) h2 with h3 | ⟨h3, h4⟩
      · exact Or.inl h3
      · refine Or.inr ⟨by omega, ?_⟩
        intro m hm
        exact h4 m (by omega)
    · rw [if_neg hn]
      exact Or.inl hn

/-- The descriptor `open` returns is not already open. -/
theorem lowest_unused_not_mem (fds : List Nat) : lowest_unused fds ∉ fds := by
  rcases lowest_unused_from_spec fds fds.length 0 (fun m hm => absurd hm (Nat.not_lt_zero m))
    with h | ⟨h1, h2⟩
  · exact h
  · intro hmem
    have hsub : List.range (fds.length + 1) ⊆ fds := by
      intro m hm
      rw [List.mem_range] at hm
      rcases Nat.lt_succ_iff_lt_or_eq.1 hm with h3 | h3
      · exact h2 m (by omega)
      · unfold lowest_unused at hmem
        rw [h1] at hmem
        rw [h3]
        simpa using hmem
    have hle := (List.subperm_of_subset (List.nodup_range _) hsub).length_le
    rw [List.length_range] at hle
    omega

theorem guard_events_plain (e : Env) (fd : Nat) (b : Bool) :
    ∀ ev ∈ guard_events e fd b,
      is_spawn ev = false ∧ is_probe ev = false ∧ is_open_lock ev = false ∧
      ∀ x r, ev ≠ Event.close x r := by
  unfold guard_events
  split_ifs <;> simp_all [is_spawn, is_probe, is_open_lock]

theorem probe_plain (ev : Event) (h : is_probe ev = true) :
    is_spawn ev = false ∧ is_open_lock ev = false ∧ is_tmp_opened ev = false ∧
      is_lock_created ev = false ∧ ∀ x r, ev ≠ Event.close x r := by
  cases ev <;> simp_all [is_probe, is_spawn, is_open_lock, is_tmp_opened, is_lock_created]

theorem spawn_events_some (e : Env) (cmd : CStr) :
    ∃ argv, spawn_events e (some cmd) =
      [Event.write_stdout [Char.ofNat 10], Event.posix_spawnp cmd argv (e.spawn_ret cmd)] ++
        (if e.spawn_ret cmd = 0 then [Event.waitpid] else []) := by
  unfold spawn_events spawn_command
  simp only [boot, List.nil_append]
  split <;> split <;> exact ⟨_, rfl⟩

theorem spawn_events_count (e : Env) (f : Option CStr) :
    (spawn_events e f).countP is_spawn = if f.isSome then 1 else 0 := by
  cases f with
  | none => rfl
  | some cmd =>
    obtain ⟨argv, h⟩ := spawn_events_some e cmd
    rw [h]
    split <;> simp [List.countP_cons, is_spawn]

theorem spawn_events_plain (e : Env) (f : Option CStr) :
    ∀ ev ∈ spawn_events e f, is_probe ev = false ∧ is_open_lock ev = false ∧
      is_tmp_opened ev = false ∧ is_lock_created ev = false ∧ ∀ x r, ev ≠ Event.close x r := by
  cases f with
  | none => intro ev hev; simp [spawn_events] at hev
  | some cmd =>
    obtain ⟨argv, h⟩ := spawn_events_some e cmd
    rw [h]
    split_ifs <;> simp [is_probe, is_open_lock, is_tmp_opened, is_lock_created]

theorem check_boot_ret (e : Env) (fds : List Nat) (b : Bool) :
    (check_lock_file e (init e (boot fds b))).1 = if already_ran e b = true then 1 else 0 := by
  rw [check_boot]

theorem countP_zero_of_probe (d : List Event) (hp : ∀ ev ∈ d, is_probe ev = true) :
    d.countP is_spawn = 0 ∧ d.countP is_open_lock = 0 ∧ d.countP is_tmp_opened = 0 ∧
      d.countP is_lock_created = 0 ∧ d.countP is_close = 0 := by
  refine ⟨?_, ?_, ?_, ?_, ?_⟩ <;> rw [List.countP_eq_zero] <;> intro ev hev <;>
    have h := hp ev hev <;> cases ev <;>
    simp_all [is_probe, is_spawn, is_open_lock, is_tmp_opened, is_lock_created, is_close]

theorem guard_events_count (e : Env) (fd : Nat) (b : Bool) :
    (guard_events e fd b).countP is_spawn = 0 ∧ (guard_events e fd b).countP is_open_lock = 0 ∧
      (guard_events e fd b).countP is_tmp_opened =
        (if e.tmp_open_ok 0 = true ∨ e.tmp_open_ok 1 = true then 1 else 0) ∧
      (guard_events e fd b).countP is_lock_created = 0 ∧
      (guard_events e fd b).countP is_close = 0 := by
  unfold guard_events
  split_ifs <;>
    simp_all [List.countP_cons, is_spawn, is_open_lock, is_tmp_opened, is_lock_created, is_close]

theorem lock_events_count (e : Env) (b : Bool) (fd : Nat) :
    (lock_events e b fd).countP is_spawn = 0 ∧ (lock_events e b fd).countP is_open_lock = 1 ∧
      (lock_events e b fd).countP is_tmp_opened = 0 ∧
      (lock_events e b fd).countP is_lock_created =
        (if b = false ∧ e.lock_create_ok = true then 1 else 0) ∧
      (lock_events e b fd).countP is_close =
        (if b = false ∧ e.lock_create_ok = true then 1 else 0) := by
  unfold lock_events
  split_ifs <;>
    simp_all [List.countP_cons, is_spawn, is_open_lock, is_tmp_opened, is_lock_created, is_close]

theorem spawn_events_counts (e : Env) (f : Option CStr) :
    (spawn_events e f).countP is_open_lock = 0 ∧ (spawn_events e f).countP is_tmp_opened = 0 ∧
      (spawn_events e f).countP is_lock_created = 0 ∧ (spawn_events e f).countP is_close = 0 := by
  refine ⟨?_, ?_, ?_, ?_⟩ <;> rw [List.countP_eq_zero] <;> intro ev hev <;>
    have h := spawn_events_plain e f ev hev <;> cases ev <;>
    simp_all [is_probe, is_spawn, is_open_lock, is_tmp_opened, is_lock_created, is_close]

theorem cleanup_events_count (e : Env) (fd : Nat) (r : Bool) :
    (cleanup_events e fd r).countP is_spawn = 0 ∧
      (cleanup_events e fd r).countP is_open_lock = 0 ∧
      (cleanup_events e fd r).countP is_tmp_opened = 0 ∧
      (cleanup_events e fd r).countP is_lock_created = 0 ∧
      (cleanup_events e fd r).countP is_close =
        (if r = true ∧ (e.tmp_open_ok 0 = true ∨ e.tmp_open_ok 1 = true) then 1 else 0) := by
  unfold cleanup_events
  split_ifs <;>
    simp_all [List.countP_cons, is_spawn, is_open_lock, is_tmp_opened, is_lock_created, is_close]

/-- The trace of a run of `main` in a fresh process, with the events of the
directory scan left as `d`. -/
theorem main_boot_trace (e : Env) (fds : List Nat) (b : Bool) :
    ∃ d, (∀ ev ∈ d, is_probe ev = true) ∧ (search_path e (boot fds b) = [] → d = []) ∧
      (main e (boot fds b)).2.trace =
        guard_events e (lowest_unused fds) b ++
          (if already_ran e b = true then []
           else d ++
             lock_events e b (lowest_unused
               (if e.tmp_open_ok 0 = true ∨ e.tmp_open_ok 1 = true then lowest_unused fds :: fds
                else fds)) ++
             spawn_events e (find_command e (boot fds b)).1) ++
          cleanup_events e (lowest_unused fds) (!never_returns e fds b) := by
  obtain ⟨d, hp, he, hm⟩ := main_boot e fds b
  exact ⟨d, hp, he, by rw [hm]⟩

theorem main_boot_sentinel (e : Env) (fds : List Nat) (b : Bool) :
    (main e (boot fds b)).2.sentinel = (b || e.lock_create_ok) := by
  obtain ⟨d, hp, he, hm⟩ := main_boot e fds b
  rw [hm]

theorem main_boot_status (e : Env) (fds : List Nat) (b : Bool) :
    (main e (boot fds b)).1 = if never_returns e fds b = true then none else some 0 := by
  obtain ⟨d, hp, he, hm⟩ := main_boot e fds b
  rw [hm]

theorem never_returns_of_status (e : Env) (fds : List Nat) (b : Bool)
    (h : (main e (boot fds b)).1 ≠ none) : never_returns e fds b = false := by
  rw [main_boot_status] at h
  cases hn : never_returns e fds b
  · rfl
  · rw [hn] at h
    exact absurd rfl h

/-- How often each kind of event occurs in a run of `main` in a fresh process. -/
theorem main_boot_counts (e : Env) (fds : List Nat) (b : Bool) :
    (main e (boot fds b)).2.trace.countP is_spawn =
      (if already_ran e b = true then 0
       else if (find_command e (boot fds b)).1.isSome = true then 1 else 0) ∧
    (main e (boot fds b)).2.trace.countP is_open_lock =
      (if already_ran e b = true then 0 else 1) ∧
    (main e (boot fds b)).2.trace.countP is_tmp_opened =
      (if e.tmp_open_ok 0 = true ∨ e.tmp_open_ok 1 = true then 1 else 0) ∧
    (main e (boot fds b)).2.trace.countP is_lock_created =
      (if b = false ∧ e.lock_create_ok = true then 1 else 0) ∧
    (main e (boot fds b)).2.trace.countP is_close =
      (if (!never_returns e fds b) = true ∧
          (e.tmp_open_ok 0 = true ∨ e.tmp_open_ok 1 = true) then 1 else 0) +
      (if b = false ∧ e.lock_create_ok = true then 1 else 0) := by
  obtain ⟨d, hp, he, ht⟩ := main_boot_trace e fds b
  obtain ⟨d1, d2, d3, d4, d5⟩ := countP_zero_of_probe d hp
  obtain ⟨g1, g2, g3, g4, g5⟩ := guard_events_count e (lowest_unused fds) b
  obtain ⟨c1, c2, c3, c4, c5⟩ :=
    cleanup_events_count e (lowest_unused fds) (!never_returns e fds b)
  obtain ⟨s2, s3, s4, s5⟩ := spawn_events_counts e (find_command e (boot fds b)).1
  have s1 := spawn_events_count e (find_command e (boot fds b)).1
  rw [ht]
  by_cases hr : already_ran e b = true
  · have hb : ¬ (b = false ∧ e.lock_create_ok = true) := by
      simp only [already_ran, Bool.and_eq_true] at hr
      simp [hr.2]
    simp only [hr, if_true, List.append_nil, List.countP_append, g1, g2, g3, g4, g5, c1, c2, c3,
      c4, c5, hb, if_false]
    simp
  · obtain ⟨l1, l2, l3, l4, l5⟩ := lock_events_count e b (lowest_unused
      (if e.tmp_open_ok 0 = true ∨ e.tmp_open_ok 1 = true then lowest_unused fds :: fds else fds))
    simp only [hr, Bool.false_eq_true, if_false, List.countP_append, g1, g2, g3, g4, g5, c1, c2,
      c3, c4, c5, d1, d2, d3, d4, d5, l1, l2, l3, l4, l5, s1, s2, s3, s4, s5]
    refine ⟨by simp, by simp, by simp, by simp, by omega⟩

/-! ## C10: the exit status -/

theorem main_boot_attempts (e : Env) (fds : List Nat) (b : Bool) :
    ((check_lock_file e (init e (boot fds b))).1 = 0 →
      (main e (boot fds b)).2.trace.countP is_open_lock = 1) ∧
    ((check_lock_file e (init e (boot fds b))).1 ≠ 0 →
      b = true ∧ (main e (boot fds b)).2.trace.countP is_open_lock = 0) := by
  obtain ⟨_, h2, _, _, _⟩ := main_boot_counts e fds b
  refine ⟨?_, ?_⟩
  · intro h
    rw [check_boot_ret] at h
    rw [h2]
    split_ifs at h ⊢
    · exact absurd h (by decide)
    · rfl
  · intro h
    rw [check_boot_ret] at h
    rw [h2]
    split_ifs at h ⊢
    · rename_i hr
      simp only [already_ran, Bool.and_eq_true] at hr
      exact ⟨hr.2, rfl⟩
    · exact absurd rfl h

/-- C4 (as amended): after a run of `main` in a fresh process the sentinel
exists exactly when it existed at the start or the exclusive create is
permitted. When the already-ran check is negative, on the command-found and
on the no-command path alike, `main` makes exactly one creation attempt; its
failure is ignored. When the check is positive the sentinel existed and no
attempt is made. -/
theorem main_sentinel_after (e : Env) (fds : List Nat) (b : Bool) :
    (main e (boot fds b)).2.sentinel = (b || e.lock_create_ok) ∧
    ((check_lock_file e (init e (boot fds b))).1 = 0 →
      (main e (boot fds b)).2.trace.countP is_open_lock = 1) ∧
    ((check_lock_file e (init e (boot fds b))).1 ≠ 0 →
      b = true ∧ (main e (boot fds b)).2.trace.countP is_open_lock = 0) :=
  ⟨main_boot_sentinel e fds b, main_boot_attempts e fds b⟩

/-- C4, the amended statement with `PATH` unset and no sentinel at the start: the
one creation attempt is made and the sentinel exists afterwards. -/
theorem main_sentinel_after_witness :
    (check_lock_file env_unset (init env_unset (boot [0, 1, 2] false))).1 = 0 ∧
    (main env_unset (boot [0, 1, 2] false)).2.trace.countP is_open_lock = 1 ∧
    (main env_unset (boot [0, 1, 2] false)).2.sentinel = true :=
  ⟨by decide, (main_sentinel_after env_unset [0, 1, 2] false).2.1 (by decide),
    (main_sentinel_after env_unset [0, 1, 2] false).1.trans (by decide)⟩

/-- C4 fails as stated: when the sentinel is absent and cannot be created, `main`
makes its creation attempt, the attempt fails, and the sentinel does not
exist in the final state. -/
theorem main_sentinel_missing :
    (main env_no_create (boot [0, 1, 2] false)).2.trace =
      [Event.sched_setaffinity, Event.sched_setscheduler, Event.open_tmp 3,
        Event.faccessat 3 (-1), Event.open_lock (-1), Event.close 3 0] ∧
    (main env_no_create (boot [0, 1, 2] false)).2.sentinel = false := by
  decide

/-! ## C5: the sentinel is attempted before the launch -/

theorem split_before_spawn (X Y pre post : List Event) (ev : Event)
    (h : X ++ Y = pre ++ ev :: post) (hX : ∀ x ∈ X, is_spawn x = false)
    (hev : is_spawn ev = true) : ∃ mid, pre = X ++ mid := by
  induction X generalizing pre with
  | nil => exact ⟨pre, rfl⟩
  | cons x X ih =>
    cases pre with
    | nil =>
      simp only [List.cons_append, List.nil_append, List.cons.injEq] at h
      have := hX x (by simp)
      rw [h.1, hev] at this
      exact absurd this (by decide)
    | cons p pre =>
      simp only [List.cons_append, List.cons.injEq] at h
      obtain ⟨mid, hmid⟩ := ih pre h.2 (fun y hy => hX y (by simp [hy]))
      exact ⟨mid, by rw [h.1, hmid]; rfl⟩

theorem lock_events_attempt (e : Env) (b : Bool) (fd : Nat) :
    ∃ ret, Event.open_lock ret ∈ lock_events e b fd := by
  unfold lock_events
  split_ifs
  · exact ⟨(fd : Int), by simp⟩
  · exact ⟨-1, by simp⟩

/-- C5: in a run of `main` at most one child is launched, and every
`posix_spawnp` call in the trace has a sentinel-creation attempt
(`open` of the sentinel in `create_lock_file`) earlier in the same trace. -/
theorem main_lock_before_spawn (e : Env) (fds : List Nat) (b : Bool) :
    (main e (boot fds b)).2.trace.countP is_spawn ≤ 1 ∧
    ∀ pre ev post, (main e (boot fds b)).2.trace = pre ++ ev :: post → is_spawn ev = true →
      ∃ ret, Event.open_lock ret ∈ pre := by
  obtain ⟨h1, _, _, _, _⟩ := main_boot_counts e fds b
  refine ⟨by rw [h1]; split_ifs <;> decide, ?_⟩
  intro pre ev post ht hev
  obtain ⟨d, hp, _, hd⟩ := main_boot_trace e fds b
  rw [hd] at ht
  have hg : ∀ x ∈ guard_events e (lowest_unused fds) b, is_spawn x = false :=
    fun x hx => (guard_events_plain e _ b x hx).1
  by_cases hr : already_ran e b = true
  · exfalso
    have hmem : ev ∈ guard_events e (lowest_unused fds) b ++
        (if already_ran e b = true then []
         else d ++ lock_events e b (lowest_unused
           (if e.tmp_open_ok 0 = true ∨ e.tmp_open_ok 1 = true then lowest_unused fds :: fds
            else fds)) ++ spawn_events e (find_command e (boot fds b)).1) ++
        cleanup_events e (lowest_unused fds) (!never_returns e fds b) := by
      rw [ht]; simp
    simp only [hr, if_true, List.append_nil, List.mem_append] at hmem
    rcases hmem with hmem | hmem
    · rw [hg ev hmem] at hev
      exact absurd hev (by decide)
    · have hc := (cleanup_events_count e (lowest_unused fds) (!never_returns e fds b)).1
      rw [List.countP_eq_zero] at hc
      exact hc ev hmem hev
  · simp only [hr, Bool.false_eq_true, if_false] at ht
    have hX : ∀ x ∈ guard_events e (lowest_unused fds) b ++ d ++
        lock_events e b (lowest_unused
          (if e.tmp_open_ok 0 = true ∨ e.tmp_open_ok 1 = true then lowest_unused fds :: fds
           else fds)), is_spawn x = false := by
      intro x hx
      simp only [List.mem_append] at hx
      rcases hx with (hx | hx) | hx
      · exact hg x hx
      · exact (probe_plain x (hp x hx)).1
      · have hc := (lock_events_count e b (lowest_unused
          (if e.tmp_open_ok 0 = true ∨ e.tmp_open_ok 1 = true then lowest_unused fds :: fds
           else fds))).1
        rw [List.countP_eq_zero] at hc
        simpa using hc x hx
    have ht2 : (guard_events e (lowest_unused fds) b ++ d ++
        lock_events e b (lowest_unused
          (if e.tmp_open_ok 0 = true ∨ e.tmp_open_ok 1 = true then lowest_unused fds :: fds
           else fds))) ++
        (spawn_events e (find_command e (boot fds b)).1 ++ cleanup_events e (lowest_unused fds) (!never_returns e fds b))
        = pre ++ ev :: post := by
      rw [← ht]; simp only [List.append_assoc]
    obtain ⟨mid, hmid⟩ := split_before_spawn _ _ pre post ev ht2 hX hev
    obtain ⟨ret, hret⟩ := lock_events_attempt e b (lowest_unused
      (if e.tmp_open_ok 0 = true ∨ e.tmp_open_ok 1 = true then lowest_unused fds :: fds
       else fds))
    exact ⟨ret, by rw [hmid]; simp [hret]⟩

/-- C5 at `PATH=/b` with `/b/pfetch` executable: the launch of `pfetch` is the
event after the newline written to standard output, and the creation of the
sentinel on descriptor 4 precedes it. -/
theorem main_lock_before_spawn_witness :
    ∃ pre post, (main env_pfetch (boot [0, 1, 2] false)).2.trace =
        pre ++ Event.posix_spawnp pfetch [pfetch] 0 :: post ∧
      ∃ ret, Event.open_lock ret ∈ pre :=
  ⟨(main env_pfetch (boot [0, 1, 2] false)).2.trace.take 18, [Event.waitpid, Event.close 3 0],
    by decide,
    (main_lock_before_spawn env_pfetch [0, 1, 2] false).2
      ((main env_pfetch (boot [0, 1, 2] false)).2.trace.take 18)
      (Event.posix_spawnp pfetch [pfetch] 0) [Event.waitpid, Event.close 3 0]
      (by decide) rfl⟩

/-! ## C3: the already-ran fast path -/

theorem main_fast_events (e : Env) (fds : List Nat)
    (hopen : e.tmp_open_ok 0 = true ∨ e.tmp_open_ok 1 = true)
    (hsearch : e.tmp_search_ok = true) :
    ∀ ev ∈ (main e (boot fds true)).2.trace,
      is_spawn ev = false ∧ is_probe ev = false ∧ is_open_lock ev = false := by
  have hr : already_ran e true = true := by
    unfold already_ran
    rcases hopen with h | h <;> simp [h, hsearch]
  obtain ⟨d, _, _, ht⟩ := main_boot_trace e fds true
  rw [ht]
  intro ev hev
  simp only [hr, if_true, List.append_nil, List.mem_append] at hev
  rcases hev with hev | hev
  · have := guard_events_plain e _ _ ev hev
    exact ⟨this.1, this.2.1, this.2.2.1⟩
  · unfold cleanup_events at hev
    split_ifs at hev
    · rw [List.mem_singleton] at hev
      subst hev
      exact ⟨rfl, rfl, rfl⟩
    · simp at hev

/-- C3 (as amended): when the sentinel exists at the start of a run of `main`
and the existence check can see it (the handle on `/tmp` opens at the first
or second attempt and the lookup in `/tmp` is permitted), `check_lock_file`
returns 1 and `main` is `init`, `check_lock_file`, `cleanup`, `return 0`: it
launches no child, runs no directory scan, makes no attempt to create the
sentinel, returns 0, and leaves the sentinel in place. Hence, of two
successive runs of which the first found the sentinel or was able to create
it, the second launches nothing. -/
theorem main_fast_path (e : Env) (fds : List Nat)
    (hopen : e.tmp_open_ok 0 = true ∨ e.tmp_open_ok 1 = true)
    (hsearch : e.tmp_search_ok = true) :
    (check_lock_file e (init e (boot fds true))).1 = 1 ∧
    main e (boot fds true) = (some 0, cleanup (check_lock_file e (init e (boot fds true))).2) ∧
    (∀ ev ∈ (main e (boot fds true)).2.trace,
      is_spawn ev = false ∧ is_probe ev = false ∧ is_open_lock ev = false) ∧
    (main e (boot fds true)).2.sentinel = true ∧
    (∀ b fds2, b = true ∨ e.lock_create_ok = true →
      ∀ ev ∈ (main e (boot fds2 (main e (boot fds b)).2.sentinel)).2.trace,
        is_spawn ev = false) := by
  have hr : already_ran e true = true := by
    unfold already_ran
    rcases hopen with h | h <;> simp [h, hsearch]
  have hc : (check_lock_file e (init e (boot fds true))).1 = 1 := by
    rw [check_boot_ret, if_pos hr]
  refine ⟨hc, ?_, main_fast_events e fds hopen hsearch, ?_, ?_⟩
  · rw [main_unfold, if_pos (by rw [hc]; decide)]
  · rw [main_boot_sentinel]
    rfl
  · intro b fds2 hb ev hev
    have hs : (main e (boot fds b)).2.sentinel = true := by
      rw [main_boot_sentinel]
      rcases hb with h | h <;> simp [h]
    rw [hs] at hev
    exact (main_fast_events e fds2 hopen hsearch ev hev).1

/-- C3, the amended statement at `PATH=/b` with `/b/pfetch` executable and the
sentinel present: the run is open, probe, close. -/
theorem main_fast_path_witness :
    (main env_pfetch (boot [0, 1, 2] true)).2.trace =
      [Event.sched_setaffinity, Event.sched_setscheduler, Event.open_tmp 3,
        Event.faccessat 3 0, Event.close 3 0] ∧
    main env_pfetch (boot [0, 1, 2] true) =
      (some 0, cleanup (check_lock_file env_pfetch (init env_pfetch (boot [0, 1, 2] true))).2) :=
  ⟨by decide, (main_fast_path env_pfetch [0, 1, 2] (Or.inl rfl) rfl).2.1⟩

/-- C3 fails as stated: with the sentinel present but `open("/tmp", ...)` failing,
`check_lock_file` returns 0 and `main` scans the search path, attempts
to create the sentinel and launches `pfetch`. -/
theorem main_launches_despite_sentinel :
    (boot [0, 1, 2] true).sentinel = true ∧
    (check_lock_file env_no_tmp (init env_no_tmp (boot [0, 1, 2] true))).1 = 0 ∧
    Event.access ['/', 'b', '/', 'p', 'f', 'e', 't', 'c', 'h'] 0 ∈
      (main env_no_tmp (boot [0, 1, 2] true)).2.trace ∧
    Event.open_lock (-1) ∈ (main env_no_tmp (boot [0, 1, 2] true)).2.trace ∧
    Event.posix_spawnp pfetch [pfetch] 0 ∈ (main env_no_tmp (boot [0, 1, 2] true)).2.trace := by
  decide

/-! ## C8: `PATH` unset or empty -/

theorem command_exists_of_empty (e : Env) (cmd : CStr) (s : State)
    (h : search_path e s = []) :
    command_exists e cmd s = (false, init_path_cache e s) := by
  unfold command_exists
  unfold search_path at h
  simp only [h, command_exists_loop]

theorem find_command_loop_of_empty (e : Env) (cs : List CStr) (s : State)
    (h : search_path e s = []) :
    (find_command_loop e cs s).1 = none ∧ (find_command_loop e cs s).2.trace = s.trace := by
  induction cs generalizing s with
  | nil => exact ⟨rfl, rfl⟩
  | cons c cs ih =>
    unfold find_command_loop
    have hc := command_exists_of_empty e c s h
    simp only [hc, Bool.false_eq_true, if_false]
    have h2 : search_path e (init_path_cache e s) = [] := by
      have := search_path_command_exists e c s
      rw [hc] at this
      rw [this, h]
    obtain ⟨h3, h4⟩ := ih (init_path_cache e s) h2
    exact ⟨h3, by rw [h4, init_path_cache_trace]⟩

theorem lock_events_plain (e : Env) (b : Bool) (fd : Nat) :
    ∀ ev ∈ lock_events e b fd, is_spawn ev = false ∧ is_probe ev = false := by
  unfold lock_events
  split_ifs <;> simp [is_spawn, is_probe]

theorem cleanup_events_plain (e : Env) (fd : Nat) (r : Bool) :
    ∀ ev ∈ cleanup_events e fd r, is_spawn ev = false ∧ is_probe ev = false := by
  unfold cleanup_events
  split_ifs <;> simp [is_spawn, is_probe]

/-- C8 (as amended): when `PATH` is unset or empty the search path is empty,
`command_exists` returns false for every name without a single store or
`access` call, and `find_command` returns the null pointer. `main` then
launches no child, probes nothing and returns 0; it attempts the creation
of the sentinel exactly once when the already-ran check is negative, and not
at all when that check is positive. -/
theorem path_unset_no_candidates (e : Env) (fds : List Nat) (b : Bool)
    (h : e.PATH = none ∨ e.PATH = some []) :
    search_path e (boot fds b) = [] ∧
    (∀ cmd, (command_exists e cmd (boot fds b)).1 = false ∧
      (command_exists e cmd (boot fds b)).2.trace = []) ∧
    (find_command e (boot fds b)).1 = none ∧
    (find_command e (boot fds b)).2.trace = [] ∧
    (main e (boot fds b)).1 = some 0 ∧
    (∀ ev ∈ (main e (boot fds b)).2.trace, is_spawn ev = false ∧ is_probe ev = false) ∧
    ((check_lock_file e (init e (boot fds b))).1 = 0 →
      (main e (boot fds b)).2.trace.countP is_open_lock = 1) ∧
    ((check_lock_file e (init e (boot fds b))).1 ≠ 0 →
      (main e (boot fds b)).2.trace.countP is_open_lock = 0) := by
  have hsp : search_path e (boot fds b) = [] := search_path_of_unset e (boot fds b) rfl h
  have hf := find_command_loop_of_empty e COMMANDS (boot fds b) hsp
  have hs := main_boot_attempts e fds b
  refine ⟨hsp, ?_, hf.1, hf.2, ?_, ?_, hs.1, fun hne => (hs.2 hne).2⟩
  · intro cmd
    rw [command_exists_of_empty e cmd _ hsp]
    exact ⟨rfl, init_path_cache_trace e _⟩
  · have hfound : (find_command e (boot fds b)).1 = none := hf.1
    rw [main_boot_status, never_returns, hfound]
    simp [hangs]
  · obtain ⟨d, hp, he, ht⟩ := main_boot_trace e fds b
    have hfound : (find_command e (boot fds b)).1 = none := hf.1
    rw [ht, he hsp, hfound]
    intro ev hev
    simp only [List.nil_append, List.mem_append, spawn_events, List.append_nil] at hev
    rcases hev with (hev | hev) | hev
    · have := guard_events_plain e _ _ ev hev
      exact ⟨this.1, this.2.1⟩
    · by_cases hr : already_ran e b = true
      · simp [hr] at hev
      · rw [if_neg hr] at hev
        exact lock_events_plain e _ _ ev hev
    · exact cleanup_events_plain e _ _ ev hev

/-- C8, the amended statement with `PATH` unset and no sentinel at the start. -/
theorem path_unset_no_candidates_witness :
    env_unset.PATH = none ∧
    (find_command env_unset (boot [0, 1, 2] false)).1 = none ∧
    (check_lock_file env_unset (init env_unset (boot [0, 1, 2] false))).1 = 0 ∧
    (main env_unset (boot [0, 1, 2] false)).2.trace.countP is_open_lock = 1 :=
  have h := path_unset_no_candidates env_unset [0, 1, 2] false (Or.inl rfl)
  ⟨rfl, h.2.2.1, by decide, h.2.2.2.2.2.2.1 (by decide)⟩

/-- C8 fails as stated: with `PATH` unset and the sentinel present, `main` takes
the already-ran path and makes no attempt to create the sentinel. -/
theorem path_unset_no_attempt :
    env_unset.PATH = none ∧
    (main env_unset (boot [0, 1, 2] true)).2.trace =
      [Event.sched_setaffinity, Event.sched_setscheduler, Event.open_tmp 3,
        Event.faccessat 3 0, Event.close 3 0] ∧
    (main env_unset (boot [0, 1, 2] true)).2.trace.countP is_open_lock = 0 := by
  decide

/-! ## C9: the cached handle on `/tmp` -/

/-- C9 (as amended): in a run of `main` in a fresh process `open("/tmp", ...)`
succeeds exactly once when its first or second attempt can succeed and never
otherwise; every `close` call is made on an open descriptor and returns 0,
and the handle on `/tmp` is never closed twice. When `main` returns, on
every path, a handle that was opened has been closed exactly once, there
are as many `close` calls as successful opens (of `/tmp` and of the
sentinel), so when no attempt to open `/tmp` succeeds no handle is closed,
`CACHED_TMP_DIRFD` is -1 and the descriptor table is the one the process
started with. -/
theorem main_handle_balanced (e : Env) (fds : List Nat) (b : Bool) :
    (main e (boot fds b)).2.trace.countP is_tmp_opened =
      (if e.tmp_open_ok 0 = true ∨ e.tmp_open_ok 1 = true then 1 else 0) ∧
    (∀ fd ret, Event.close fd ret ∈ (main e (boot fds b)).2.trace → ret = 0) ∧
    (∀ fd, 0 ≤ fd → Event.open_tmp fd ∈ (main e (boot fds b)).2.trace →
      (main e (boot fds b)).2.trace.count (Event.close fd 0) ≤ 1) ∧
    ((main e (boot fds b)).1 ≠ none →
      (main e (boot fds b)).2.CACHED_TMP_DIRFD = -1 ∧
      (main e (boot fds b)).2.fds = fds ∧
      (∀ fd, 0 ≤ fd → Event.open_tmp fd ∈ (main e (boot fds b)).2.trace →
        (main e (boot fds b)).2.trace.count (Event.close fd 0) = 1) ∧
      (main e (boot fds b)).2.trace.countP is_close =
        (main e (boot fds b)).2.trace.countP is_tmp_opened +
        (main e (boot fds b)).2.trace.countP is_lock_created) := by
  obtain ⟨_, _, h3, h4, h5⟩ := main_boot_counts e fds b
  obtain ⟨d, hp, _, hm⟩ := main_boot e fds b
  have ht : (main e (boot fds b)).2.trace = _ := congrArg (fun r => r.2.trace) hm
  simp only at ht
  have hgc : ∀ x r, Event.close x r ∉ guard_events e (lowest_unused fds) b :=
    fun x r hmem => (guard_events_plain e _ b _ hmem).2.2.2 x r rfl
  have hdc : ∀ x r, Event.close x r ∉ d :=
    fun x r hmem => (probe_plain _ (hp _ hmem)).2.2.2.2 x r rfl
  have hsc : ∀ x r, Event.close x r ∉ spawn_events e (find_command e (boot fds b)).1 :=
    fun x r hmem => (spawn_events_plain e _ _ hmem).2.2.2.2 x r rfl
  have hdo : ∀ x, Event.open_tmp x ∉ d := by
    intro x hmem
    have := hp _ hmem
    simp [is_probe] at this
  have hso : ∀ x, Event.open_tmp x ∉ spawn_events e (find_command e (boot fds b)).1 := by
    intro x hmem
    cases hf : (find_command e (boot fds b)).1 with
    | none => rw [hf] at hmem; simp [spawn_events] at hmem
    | some cmd =>
      rw [hf] at hmem
      obtain ⟨argv, ha⟩ := spawn_events_some e cmd
      rw [ha] at hmem
      split_ifs at hmem <;> simp at hmem
  have hcount : ∀ fd, 0 ≤ fd → Event.open_tmp fd ∈ (main e (boot fds b)).2.trace →
      (main e (boot fds b)).2.trace.count (Event.close fd 0) =
        if never_returns e fds b = true then 0 else 1 := by
    intro fd hfd hopen
    rw [ht] at hopen ⊢
    have hfresh := lowest_unused_not_mem (lowest_unused fds :: fds)
    have hne : lowest_unused (lowest_unused fds :: fds) ≠ lowest_unused fds := by
      intro heq
      exact hfresh (by rw [heq]; simp)
    by_cases hok : e.tmp_open_ok 0 = true ∨ e.tmp_open_ok 1 = true
    · have hfd0 : fd = (lowest_unused fds : Nat) := by
        simp only [List.mem_append] at hopen
        rcases hopen with (hopen | hopen) | hopen
        · unfold guard_events at hopen
          split_ifs at hopen <;> simp at hopen <;> first | exact hopen | omega
        · split_ifs at hopen
          · simp at hopen
          · simp only [List.mem_append] at hopen
            rcases hopen with (hopen | hopen) | hopen
            · exact absurd hopen (hdo _)
            · unfold lock_events at hopen
              split_ifs at hopen <;> simp at hopen
            · exact absurd hopen (hso _)
        · unfold cleanup_events at hopen
          split_ifs at hopen <;> simp at hopen
      subst hfd0
      simp only [List.count_append, List.count_eq_zero.2 (hgc _ _), Nat.zero_add]
      have hcl : List.count (Event.close (lowest_unused fds : Nat) 0)
          (cleanup_events e (lowest_unused fds) (!never_returns e fds b)) =
          if never_returns e fds b = true then 0 else 1 := by
        unfold cleanup_events
        cases never_returns e fds b <;> simp [hok]
      rw [hcl]
      by_cases hr : already_ran e b = true
      · rw [if_pos hr]
        simp
      · rw [if_neg hr]
        simp only [List.count_append, List.count_eq_zero.2 (hdc _ _),
          List.count_eq_zero.2 (hsc _ _), Nat.zero_add, Nat.add_zero, if_pos hok]
        have : List.count (Event.close (lowest_unused fds : Nat) 0)
            (lock_events e b (lowest_unused (lowest_unused fds :: fds))) = 0 := by
          rw [List.count_eq_zero]
          unfold lock_events
          split_ifs
          · simp only [List.mem_cons, List.mem_singleton, List.not_mem_nil, or_false,
              Event.close.injEq, and_true, false_or, reduceCtorEq]
            intro heq
            exact hne (by exact_mod_cast heq.symm)
          · simp
        rw [this, Nat.zero_add]
    · exfalso
      simp only [List.mem_append] at hopen
      rcases hopen with (hopen | hopen) | hopen
      · unfold guard_events at hopen
        split_ifs at hopen <;> simp_all
      · split_ifs at hopen
        · simp at hopen
        · simp only [List.mem_append] at hopen
          rcases hopen with (hopen | hopen) | hopen
          · exact absurd hopen (hdo _)
          · unfold lock_events at hopen
            split_ifs at hopen <;> simp at hopen
          · exact absurd hopen (hso _)
      · unfold cleanup_events at hopen
        split_ifs at hopen <;> simp_all
  refine ⟨h3, ?_, ?_, ?_⟩
  · intro fd ret hmem
    rw [ht] at hmem
    simp only [List.mem_append] at hmem
    rcases hmem with (hmem | hmem) | hmem
    · exact absurd hmem (hgc _ _)
    · by_cases hr : already_ran e b = true
      · simp [hr] at hmem
      · rw [if_neg hr] at hmem
        simp only [List.mem_append] at hmem
        rcases hmem with (hmem | hmem) | hmem
        · exact absurd hmem (hdc _ _)
        · unfold lock_events at hmem
          split_ifs at hmem <;> simp at hmem <;> exact hmem.2
        · exact absurd hmem (hsc _ _)
    · unfold cleanup_events at hmem
      split_ifs at hmem
      · simp only [List.mem_singleton, Event.close.injEq] at hmem
        exact hmem.2
      · simp at hmem
  · intro fd hfd hopen
    rw [hcount fd hfd hopen]
    split <;> decide
  · intro hret
    have hnr := never_returns_of_status e fds b hret
    refine ⟨by rw [hm]; simp [hnr], by rw [hm]; simp [hnr], ?_, ?_⟩
    · intro fd hfd hopen
      rw [hcount fd hfd hopen, hnr]
      rfl
    · rw [h3, h4, h5, hnr]
      simp

/-- C9, the amended statement at `PATH=/b` with `/b/pfetch` executable: `main`
returns, and the handle on `/tmp` is descriptor 3, opened once and closed once. -/
theorem main_handle_balanced_witness :
    (main env_pfetch (boot [0, 1, 2] false)).1 ≠ none ∧
    Event.open_tmp 3 ∈ (main env_pfetch (boot [0, 1, 2] false)).2.trace ∧
    (main env_pfetch (boot [0, 1, 2] false)).2.trace.count (Event.close 3 0) = 1 :=
  ⟨by decide, by decide,
    ((main_handle_balanced env_pfetch [0, 1, 2] false).2.2.2 (by decide)).2.2.1 3
      (by decide) (by decide)⟩

/-- C9 fails as stated: when `open("/tmp", ...)` fails at both attempts no handle is
opened and none is closed; the run makes no `close` call at all. -/
theorem main_handle_never_opened :
    (main env_unset_no_tmp (boot [0, 1, 2] true)).2.trace =
      [Event.sched_setaffinity, Event.sched_setscheduler, Event.open_tmp (-1),
        Event.open_tmp (-1), Event.open_lock (-1)] ∧
    (main env_unset_no_tmp (boot [0, 1, 2] true)).2.trace.countP is_tmp_opened = 0 ∧
    (main env_unset_no_tmp (boot [0, 1, 2] true)).2.trace.countP is_close = 0 := by
  decide

end Shellup
